import Mathlib

/-!
# A verification development for the `pyssi` SSI interpreter

This file gives a shallow embedding, in Lean, of `src/pyssi/__init__.py`:
the delimiter lexer, the attribute and expression grammars (pyparsing),
the AST builder and the directive evaluation semantics, together with
theorems settling the specification claims about that code.

Conventions of the embedding:
* Python exceptions are modelled by `Except Err`; the distinct exception
  classes of the source map to distinct `Err` constructors.
* Python's mutable context dict is threaded explicitly as an association
  list with dict semantics (`ctxGet`/`ctxSet`/`ctxUpdate`).
* Recursion that is unbounded in Python (evaluation can re-enter a block
  through the context, the AST builder shares one token iterator across
  recursive calls) is given explicit fuel; `Err.recursionLimit` plays the
  role of Python's `RecursionError` and is unreachable at the fuel bounds
  used by the top-level entry points.
* The two pyparsing primitives used by the grammars (`dblQuotedString`,
  `QuotedString`) are external library internals; per the spec they are
  modelled from their documented contract: a quoted run of characters with
  no escaping, leading-whitespace-skipping as in pyparsing.
-/

namespace Pyssi

/-- The exception classes raised by the source, one constructor each:
`Exception('End marker not found')`, pyparsing `ParseException` (both
grammars), `KeyError`, `TypeError`, `ExpressionEvaluationError`, the
`Exception('Include must declare either a file or a virtual attribute')`,
and the fuel sentinel standing for Python's `RecursionError`. -/
inductive Err where
  | endMarkerNotFound
  | grammarError
  | keyError
  | typeError
  | exprEvalError
  | includeConfigError
  | fetchError
  | recursionLimit
  deriving DecidableEq, Repr

/-- The second component of a lexer token: Python passes `None` for bare
verbs, the raw string for `TEXT` tokens, and an attribute dict otherwise. -/
inductive TokAttrs where
  | none
  | str (s : String)
  | dict (m : List (String × String))
  deriving DecidableEq, Repr

/-- A lexer token `(name, attributes)` as yielded by `Parser.lexemize`. -/
abbrev Token := String × TokAttrs

/-- The directive node classes of the source, one constructor per class.
`node` is the base class `Node` (also the synthetic AST root); `if_` and
`elif_` carry the extra `_else_tokens` list of their Python classes. -/
inductive Node where
  | node (attrs : TokAttrs) (children : List Node)
  | noop (attrs : TokAttrs) (children : List Node)
  | text (attrs : TokAttrs) (children : List Node)
  | block (attrs : TokAttrs) (children : List Node)
  | endblock (attrs : TokAttrs) (children : List Node)
  | config (attrs : TokAttrs) (children : List Node)
  | echo (attrs : TokAttrs) (children : List Node)
  | if_ (attrs : TokAttrs) (children : List Node) (elseToks : List Node)
  | elif_ (attrs : TokAttrs) (children : List Node) (elseToks : List Node)
  | else_ (attrs : TokAttrs) (children : List Node)
  | endif (attrs : TokAttrs) (children : List Node)
  | include_ (attrs : TokAttrs) (children : List Node)
  | setvar (attrs : TokAttrs) (children : List Node)

/-- A value stored in the evaluation context: a string, a dict (the only
dict the code ever stores is `{}`, the `groupdict` default), or the
zero-argument closure installed by `Block.evaluate` — the closure is
represented by the block's captured children, which the code re-evaluates
against the current context on every invocation. -/
inductive Value where
  | str (s : String)
  | dict (m : List (String × String))
  | block (children : List Node)

/-- The mutable evaluation context (a Python dict), as an insertion-ordered
association list with unique keys. -/
abbrev Ctx := List (String × Value)

/-- Dict lookup: `d.get(k)` / `d[k]`. -/
def assocGet {α : Type} (m : List (String × α)) (k : String) : Option α :=
  (m.find? (fun p => p.1 == k)).map (·.2)

/-- Dict write `d[k] = v`: updates the value at the first occurrence of the
key in place, else appends, exactly the insertion-order semantics of a
Python dict. -/
def assocSet {α : Type} : List (String × α) → String → α → List (String × α)
  | [], k, v => [(k, v)]
  | (k', v') :: rest, k, v =>
    if k' == k then (k', v) :: rest else (k', v') :: assocSet rest k v

/-- `d.update(pairs)`: left-to-right sequence of dict writes. -/
def assocUpdate {α : Type} (m : List (String × α)) (kvs : List (String × α)) :
    List (String × α) :=
  kvs.foldl (fun acc kv => assocSet acc kv.1 kv.2) m

def ctxGet (ctx : Ctx) (k : String) : Option Value := assocGet ctx k

def ctxSet (ctx : Ctx) (k : String) (v : Value) : Ctx := assocSet ctx k v

def ctxUpdate (ctx : Ctx) (kvs : List (String × Value)) : Ctx := assocUpdate ctx kvs

/-- Python truthiness of `d.get(key)` for a string-valued attribute:
`None` and `''` are falsy. -/
def truthyS : Option String → Bool
  | Option.none => false
  | Option.some s => s ≠ ""

/-- Python truthiness of a fragment returned by `Node.evaluate`: `None` and
`''` (and an empty dict) are falsy; everything else is truthy. This is the
filter applied by `''.join(filter(None, result))` in `evaluate_tokens`. -/
def fragTruthy : Option Value → Bool
  | Option.none => false
  | Option.some (Value.str s) => s ≠ ""
  | Option.some (Value.dict m) => m ≠ []
  | Option.some (Value.block _) => true

/-- `''.join(filter(None, result))`: drops falsy fragments, concatenates
the rest; a truthy non-string fragment raises `TypeError` just as `join`
does. -/
def joinFrags (frags : List (Option Value)) : Except Err String :=
  let kept := frags.filter fragTruthy
  if kept.all (fun f => match f with | Option.some (Value.str _) => true | _ => false) then
    Except.ok (String.join (kept.filterMap (fun f => match f with
      | Option.some (Value.str s) => Option.some s
      | _ => Option.none)))
  else Except.error Err.typeError

/-! ## Character classes and pyparsing-style primitives -/

/-- pyparsing's default skippable whitespace (`DEFAULT_WHITE_CHARS`). -/
def ppWs (c : Char) : Bool := c = ' ' || c = '\n' || c = '\t'

/-- Skip leading pyparsing whitespace, as every pyparsing element does. -/
def skipWs (cs : List Char) : List Char := cs.dropWhile ppWs

/-- The attribute-name alphabet `string.ascii_lowercase + string.digits + '$_-'`. -/
def nameChar (c : Char) : Bool :=
  ('a' ≤ c && c ≤ 'z') || ('0' ≤ c && c ≤ '9') || c = '$' || c = '_' || c = '-'

/-- The expression-word alphabet `string.ascii_lowercase + '_'`. -/
def wordChar (c : Char) : Bool := ('a' ≤ c && c ≤ 'z') || c = '_'

/-- Membership of `string.printable`: ASCII 0x20–0x7e plus
`\t`, `\n`, `\r`, `\x0b`, `\x0c`. -/
def printableChar (c : Char) : Bool :=
  (0x20 ≤ c.toNat && c.toNat ≤ 0x7e) || c = '\t' || c = '\n' || c = '\r' ||
    c.toNat = 0x0b || c.toNat = 0x0c

/-- `Word(chars)`: skip whitespace, then a maximal non-empty run of `chars`. -/
def parseWord (p : Char → Bool) (cs : List Char) : Option (String × List Char) :=
  let cs := skipWs cs
  let w := cs.takeWhile p
  if w = [] then Option.none else Option.some (String.mk w, cs.dropWhile p)

/-- `Literal(s)`: skip whitespace, then the exact string. -/
def parseLit (s : String) (cs : List Char) : Option (List Char) :=
  let cs := skipWs cs
  if s.data.isPrefixOf cs then Option.some (cs.drop s.length) else Option.none

/-- Modelled from the spec: pyparsing's quoted-string primitives
(`dblQuotedString`, `QuotedString`) are library internals; §4.1/§4.2 give
their contract — a value is the quote character, a run of characters (no
escaping defined, no newlines, not the quote itself), and the closing
quote, with the quotes removed from the result. -/
def parseQuoted (q : Char) (cs : List Char) : Option (String × List Char) :=
  match skipWs cs with
  | [] => Option.none
  | c :: rest =>
    if c = q then
      let v := rest.takeWhile (fun d => d ≠ q && d ≠ '\n' && d ≠ '\r' && d ≠ '\\')
      match rest.dropWhile (fun d => d ≠ q && d ≠ '\n' && d ≠ '\r' && d ≠ '\\') with
      | d :: rest' => if d = q then Option.some (String.mk v, rest') else Option.none
      | [] => Option.none
    else Option.none

/-! ## `AttributeParser` -/

/-- One `Group(name + sep + value)` of the attribute grammar:
`name = Word(lowercase+digits+'$_-')`, `sep = Literal('=')`,
`value = dblQuotedString().setParseAction(removeQuotes)`. -/
def parseAttrPair (cs : List Char) : Option ((String × String) × List Char) :=
  match parseWord nameChar cs with
  | Option.none => Option.none
  | Option.some (k, cs1) =>
    match parseLit "=" cs1 with
    | Option.none => Option.none
    | Option.some cs2 =>
      match parseQuoted '"' cs2 with
      | Option.none => Option.none
      | Option.some (v, cs3) => Option.some ((k, v), cs3)

/-- The `OneOrMore` loop: keep taking attribute groups while they match.
Fuel bounds the iteration count; each success consumes at least three
characters, so `cs.length` iterations can never be cut short. -/
def attrsLoop : Nat → List Char → List (String × String) × List Char
  | 0, cs => ([], cs)
  | fuel + 1, cs =>
    match parseAttrPair cs with
    | Option.none => ([], cs)
    | Option.some (kv, rest) =>
      let (more, rest') := attrsLoop fuel rest
      (kv :: more, rest')

/-- The dict comprehension `{k: v for k, v in result}`: insertion order of
first occurrences, later duplicates overwrite. -/
def dictOfPairs (ps : List (String × String)) : List (String × String) :=
  ps.foldl (fun acc kv => assocSet acc kv.1 kv.2) []

/-- `AttributeParser.parse(text)`: `OneOrMore(Group(name + sep + value))`
with `parseAll=True` (trailing whitespace allowed, anything else raises
`ParseException`), then the dict comprehension over the parsed pairs. -/
def AttributeParser.parse (s : String) : Except Err (List (String × String)) :=
  let cs := s.data
  match parseAttrPair cs with
  | Option.none => Except.error Err.grammarError
  | Option.some (kv, rest) =>
    let (more, rest') := attrsLoop rest.length rest
    if skipWs rest' = [] then Except.ok (dictOfPairs (kv :: more))
    else Except.error Err.grammarError

/-! ## `ExpressionParser` and `Expression` -/

/-- The parsed expression: the `tokens.get(...)` fields read by
`Expression.evaluate`. The pyparsing result wraps the variable in a
one-element `Group` which `evaluate` unwraps with `variable[0]`; the
unwrapped string is stored directly here. -/
structure Expression where
  variable_ : Option String
  operator : Option String
  text : Option String
  regexp : Option String

/-- `variable = Group(Literal('$').suppress() + word)`. -/
def parseVariable (cs : List Char) : Option (String × List Char) :=
  match parseLit "$" cs with
  | Option.none => Option.none
  | Option.some cs1 => parseWord wordChar cs1

/-- `operator = Literal('=') | Literal('!=')`, first match wins. -/
def parseOperator (cs : List Char) : Option (String × List Char) :=
  match parseLit "=" cs with
  | Option.some rest => Option.some ("=", rest)
  | Option.none =>
    match parseLit "!=" cs with
    | Option.some rest => Option.some ("!=", rest)
    | Option.none => Option.none

/-- `text = QuotedString(quoteChar="'") | Word(string.printable)`. -/
def parseTextTok (cs : List Char) : Option (String × List Char) :=
  match parseQuoted '\'' cs with
  | Option.some r => Option.some r
  | Option.none => parseWord printableChar cs

/-- First alternative `variable + operator + regexp`. -/
def parseAlt1 (cs : List Char) : Option (Expression × List Char) :=
  match parseVariable cs with
  | Option.none => Option.none
  | Option.some (v, cs1) =>
    match parseOperator cs1 with
    | Option.none => Option.none
    | Option.some (op, cs2) =>
      match parseQuoted '/' cs2 with
      | Option.none => Option.none
      | Option.some (r, cs3) =>
        Option.some (⟨Option.some v, Option.some op, Option.none, Option.some r⟩, cs3)

/-- Second alternative `variable + operator + text`. -/
def parseAlt2 (cs : List Char) : Option (Expression × List Char) :=
  match parseVariable cs with
  | Option.none => Option.none
  | Option.some (v, cs1) =>
    match parseOperator cs1 with
    | Option.none => Option.none
    | Option.some (op, cs2) =>
      match parseTextTok cs2 with
      | Option.none => Option.none
      | Option.some (t, cs3) =>
        Option.some (⟨Option.some v, Option.some op, Option.some t, Option.none⟩, cs3)

/-- Third alternative: `variable` alone. -/
def parseAlt3 (cs : List Char) : Option (Expression × List Char) :=
  match parseVariable cs with
  | Option.none => Option.none
  | Option.some (v, cs1) =>
    Option.some (⟨Option.some v, Option.none, Option.none, Option.none⟩, cs1)

/-- `ExpressionParser.parse(text)`: the `MatchFirst` of the three
alternatives with `parseAll=True` — pyparsing commits to the first
alternative that matches and only then checks for end of input. -/
def ExpressionParser.parse (s : String) : Except Err Expression :=
  let cs := s.data
  let r := match parseAlt1 cs with
    | Option.some r => Option.some r
    | Option.none =>
      match parseAlt2 cs with
      | Option.some r => Option.some r
      | Option.none => parseAlt3 cs
  match r with
  | Option.none => Except.error Err.grammarError
  | Option.some (e, rest) =>
    if skipWs rest = [] then Except.ok e else Except.error Err.grammarError

/-- The external collaborators of the evaluator: Python's `re` engine and
the file/HTTP fetchers of `Include`. `reMatch pat input` abstracts
`re.match(pat, input)`: `none` is a failed match, `some groups` a
successful one carrying the named capture groups (`none` entries are
groups that did not participate). `readFile` abstracts `open(file).read()`
and `getUrl` the checked `requests.get(url).text`. -/
structure Env where
  reMatch : String → String → Option (List (String × Option String))
  readFile : String → Except Err String
  getUrl : String → Except Err String

/-- `match.groupdict({})`: every named group of the pattern, matched groups
as their string, non-participating groups as the default — the *empty
dict* that the source passes as `groupdict`'s default argument. -/
def groupdictD (gs : List (String × Option String)) : List (String × Value) :=
  gs.map (fun g => (g.1, match g.2 with
    | Option.some s => Value.str s
    | Option.none => Value.dict []))

/-- `Expression._get_operator_func`. -/
def getOperatorFunc (op : Option String) : Except Err (Bool → Bool → Bool) :=
  match op with
  | Option.some "=" => Except.ok (fun a b => a == b)
  | Option.some "!=" => Except.ok (fun a b => a != b)
  | _ => Except.error Err.exprEvalError

/-- `Expression.evaluate(context)`: the three comparison forms in source
order (regex, text, existence), guarded by Python truthiness of the parsed
fields, with the regex form updating the context from `groupdict` exactly
when the result is true and a match occurred. Returns the boolean and the
(possibly updated) context. -/
def Expression.evaluate (env : Env) (e : Expression) (ctx : Ctx) :
    Except Err (Bool × Ctx) :=
  if truthyS e.regexp then
    match
      (match e.variable_ with
       | Option.some v =>
         match ctxGet ctx v with
         | Option.some (Value.str s) => Except.ok s
         | Option.some _ => Except.error Err.typeError
         | Option.none => Except.ok ""
       | Option.none => Except.ok "") with
    | Except.error err => Except.error err
    | Except.ok input =>
      let m := env.reMatch (e.regexp.getD "") input
      match getOperatorFunc e.operator with
      | Except.error err => Except.error err
      | Except.ok opf =>
        let result := opf m.isSome true
        if result ∧ m.isSome then
          Except.ok (result, ctxUpdate ctx (groupdictD (m.getD [])))
        else
          Except.ok (result, ctx)
  else if truthyS e.text then
    match getOperatorFunc e.operator with
    | Except.error err => Except.error err
    | Except.ok opf =>
      let lhs := e.variable_.bind (ctxGet ctx)
      let eqv := match lhs with
        | Option.some (Value.str s) => s == e.text.getD ""
        | _ => false
      Except.ok (opf eqv true, ctx)
  else if truthyS e.variable_ then
    Except.ok ((e.variable_.bind (ctxGet ctx)).isSome, ctx)
  else
    Except.error Err.exprEvalError

/-! ## `Parser.lexemize` and `Parser.tokenize` -/

/-- `text.index(pat, pos)` and the slicing around it: split `cs` at the
first occurrence of `pat`, returning the part before it and the part after
it (the pattern itself consumed). `none` models the `ValueError`. -/
def splitFirst (pat : List Char) : List Char → Option (List Char × List Char)
  | [] => Option.none
  | c :: cs =>
    if pat.isPrefixOf (c :: cs) then Option.some ([], (c :: cs).drop pat.length)
    else
      match splitFirst pat cs with
      | Option.none => Option.none
      | Option.some (before, after) => Option.some (c :: before, after)

/-- Python `str.isspace` whitespace, as used by `str.strip` and
`str.split`. -/
def pyWs (c : Char) : Bool :=
  c = ' ' || c = '\t' || c = '\n' || c = '\r' || c.toNat = 0x0b || c.toNat = 0x0c

/-- `s.strip()`. -/
def pyStrip (cs : List Char) : List Char :=
  ((cs.dropWhile pyWs).reverse.dropWhile pyWs).reverse

/-- `s.upper()` (ASCII, the only characters a directive verb contains). -/
def pyUpper (cs : List Char) : String := String.mk (cs.map Char.toUpper)

/-- `Parser.tokenize(expression)`: strip, bare verb if no `' '` (space,
exactly — not tab) occurs, else `split(maxsplit=1)` into verb and
attribute text, the latter parsed with the attribute grammar. -/
def tokenize (s : String) : Except Err Token :=
  let e := pyStrip s.data
  if ¬ e.contains ' ' then Except.ok (pyUpper e, TokAttrs.none)
  else
    let verb := e.takeWhile (fun c => ¬ pyWs c)
    let attrText := (e.dropWhile (fun c => ¬ pyWs c)).dropWhile pyWs
    match AttributeParser.parse (String.mk attrText) with
    | Except.error err => Except.error err
    | Except.ok m => Except.ok (pyUpper verb, TokAttrs.dict m)

/-- `Parser.lexemize(text)` is a generator: it yields tokens until the text
is exhausted or it raises. The result is the list of tokens yielded before
the generator finished, paired with the error it then raised, if any — the
consumer (`build_ast`) sees tokens one at a time and hits the error only
when it pulls past the last good token. Fuel: every iteration consumes the
5-character start delimiter, so `cs.length` iterations always suffice. -/
def lexemizeF : Nat → List Char → List Token × Option Err
  | 0, _ => ([], Option.some Err.recursionLimit)
  | fuel + 1, cs =>
    match splitFirst "<!--#".data cs with
    | Option.none =>
      (if cs = [] then [] else [("TEXT", TokAttrs.str (String.mk cs))], Option.none)
    | Option.some (before, rest) =>
      let pre := if before = [] then [] else [("TEXT", TokAttrs.str (String.mk before))]
      match splitFirst "-->".data rest with
      | Option.none => (pre, Option.some Err.endMarkerNotFound)
      | Option.some (body, rest2) =>
        if body = [] then
          let (ts, e) := lexemizeF fuel rest2
          (pre ++ ts, e)
        else
          match tokenize (String.mk body) with
          | Except.error err => (pre, Option.some err)
          | Except.ok t =>
            let (ts, e) := lexemizeF fuel rest2
            (pre ++ t :: ts, e)

/-- `Parser.lexemize` with its fuel filled in. -/
def lexemize (text : String) : List Token × Option Err :=
  lexemizeF (text.data.length + 1) text.data

/-! ## `token_factory` and `Parser.build_ast` -/

/-- `token_factory(name, attributes)`: the name→constructor registry; a
name outside its eleven keys raises `KeyError`. -/
def token_factory (name : String) (attributes : TokAttrs) : Except Err Node :=
  if name = "TEXT" then Except.ok (Node.text attributes [])
  else if name = "BLOCK" then Except.ok (Node.block attributes [])
  else if name = "ENDBLOCK" then Except.ok (Node.endblock attributes [])
  else if name = "CONFIG" then Except.ok (Node.config attributes [])
  else if name = "ECHO" then Except.ok (Node.echo attributes [])
  else if name = "IF" then Except.ok (Node.if_ attributes [] [])
  else if name = "ELIF" then Except.ok (Node.elif_ attributes [] [])
  else if name = "ELSE" then Except.ok (Node.else_ attributes [])
  else if name = "ENDIF" then Except.ok (Node.endif attributes [])
  else if name = "INCLUDE" then Except.ok (Node.include_ attributes [])
  else if name = "SET" then Except.ok (Node.setvar attributes [])
  else Except.error Err.keyError

/-- The class attribute `end_tags` (`None` on every class that does not
open a scope; Python truthiness of `None` and of the sets maps to
emptiness of the list). -/
def Node.endTags : Node → List String
  | Node.block _ _ => ["ENDBLOCK"]
  | Node.if_ _ _ _ => ["ELIF", "ELSE", "ENDIF"]
  | Node.elif_ _ _ _ => ["ELSE", "ENDIF"]
  | Node.else_ _ _ => ["ENDIF"]
  | _ => []

/-- The `children` property setter: plain append on the base class;
`If`/`Elif` route `Elif`/`Else` children into `_else_tokens` instead. -/
def appendChild (parent : Node) (c : Node) : Node :=
  match parent with
  | Node.node a ch => Node.node a (ch ++ [c])
  | Node.noop a ch => Node.noop a (ch ++ [c])
  | Node.text a ch => Node.text a (ch ++ [c])
  | Node.block a ch => Node.block a (ch ++ [c])
  | Node.endblock a ch => Node.endblock a (ch ++ [c])
  | Node.config a ch => Node.config a (ch ++ [c])
  | Node.echo a ch => Node.echo a (ch ++ [c])
  | Node.if_ a ch el =>
    match c with
    | Node.elif_ _ _ _ => Node.if_ a ch (el ++ [c])
    | Node.else_ _ _ => Node.if_ a ch (el ++ [c])
    | _ => Node.if_ a (ch ++ [c]) el
  | Node.elif_ a ch el =>
    match c with
    | Node.elif_ _ _ _ => Node.elif_ a ch (el ++ [c])
    | Node.else_ _ _ => Node.elif_ a ch (el ++ [c])
    | _ => Node.elif_ a (ch ++ [c]) el
  | Node.else_ a ch => Node.else_ a (ch ++ [c])
  | Node.endif a ch => Node.endif a (ch ++ [c])
  | Node.include_ a ch => Node.include_ a (ch ++ [c])
  | Node.setvar a ch => Node.setvar a (ch ++ [c])

/-- The recursive worker `inner(root, tokens)` of `build_ast`. All frames
share one token iterator; a frame returns the completed root together with
the tokens it did not consume. `endErr` is the error the lazy lexer raises
once the stream is exhausted. Python appends an opening node before
recursing into it and mutates it in place; here the recursion happens
first and the completed node is appended, which builds the same tree. Fuel
bounds the call depth; every call strictly shrinks the remaining token
list, so `tokens.length + 2` always suffices. -/
def innerB : Nat → Node → List Token → Option Err → Except Err (Node × List Token)
  | 0, _, _, _ => Except.error Err.recursionLimit
  | _ + 1, root, [], endErr =>
    match endErr with
    | Option.some e => Except.error e
    | Option.none => Except.ok (root, [])
  | fuel + 1, root, t :: rest, endErr =>
    match token_factory t.1 t.2 with
    | Except.error err => Except.error err
    | Except.ok node =>
      if node.endTags ≠ [] then
        match innerB fuel node rest endErr with
        | Except.error err => Except.error err
        | Except.ok (node', rest') => innerB fuel (appendChild root node') rest' endErr
      else if root.endTags ≠ [] ∧ t.1 ∈ root.endTags then
        Except.ok (root, rest)
      else
        innerB fuel (appendChild root node) rest endErr

/-- `Parser.build_ast(tokens)`: a fresh synthetic root `Node()` and the
shared-iterator recursion, with the lazy lexer's pending error attached to
the end of the stream. -/
def build_ast (tokens : List Token) (endErr : Option Err) : Except Err Node :=
  match innerB (tokens.length + 2) (Node.node TokAttrs.none []) tokens endErr with
  | Except.error err => Except.error err
  | Except.ok (root, _) => Except.ok root

/-- `Parser.parse(text) = build_ast(lexemize(text))`. -/
def Parser.parse (text : String) : Except Err Node :=
  let (ts, endErr) := lexemize text
  build_ast ts endErr

/-! ## Evaluation

One step-indexed definition produces both `Node.evaluate` (first
component) and the fragment-collecting pass of `evaluate_tokens` (second
component). Fuel is spent once per call layer; Python's unbounded
recursion (a block can re-enter itself through the context) becomes
`Err.recursionLimit` when the fuel runs out, the stand-in for
`RecursionError`. -/

/-- The fixed fallback string of `Echo.evaluate`. -/
def errmsgDefault : String := "[an error occurred while processing the directive]"

/-- The body of `Node.evaluate`, one case per directive class, abstracted
over `evaluate_tokens` (the only way evaluation recurses): `evtoks` is
filled with the next-lower fuel level by `evalF` below. -/
def nodeEvalBody (env : Env)
    (evtoks : List Node → Ctx → Except Err (String × Ctx)) :
    Node → Ctx → Except Err (Option Value × Ctx) :=
  fun node ctx =>
    match node with
      -- `Node.evaluate` (base class, also `Noop`, `Endblock`, `Else`,
      -- `Endif`): `return evaluate_tokens(self.children, context)`.
      | Node.node _ ch =>
        match evtoks ch ctx with
        | Except.error e => Except.error e
        | Except.ok (s, c) => Except.ok (Option.some (Value.str s), c)
      | Node.noop _ ch =>
        match evtoks ch ctx with
        | Except.error e => Except.error e
        | Except.ok (s, c) => Except.ok (Option.some (Value.str s), c)
      | Node.endblock _ ch =>
        match evtoks ch ctx with
        | Except.error e => Except.error e
        | Except.ok (s, c) => Except.ok (Option.some (Value.str s), c)
      | Node.endif _ ch =>
        match evtoks ch ctx with
        | Except.error e => Except.error e
        | Except.ok (s, c) => Except.ok (Option.some (Value.str s), c)
      | Node.else_ _ ch =>
        match evtoks ch ctx with
        | Except.error e => Except.error e
        | Except.ok (s, c) => Except.ok (Option.some (Value.str s), c)
      -- `Text.evaluate`: `return self.attributes`.
      | Node.text a _ =>
        match a with
        | TokAttrs.none => Except.ok (Option.none, ctx)
        | TokAttrs.str s => Except.ok (Option.some (Value.str s), ctx)
        | TokAttrs.dict m => Except.ok (Option.some (Value.dict m), ctx)
      -- `Block.evaluate`: installs the lazy closure, returns `None`.
      | Node.block a ch =>
        match a with
        | TokAttrs.dict m =>
          match assocGet m "name" with
          | Option.some name => Except.ok (Option.none, ctxSet ctx name (Value.block ch))
          | Option.none => Except.error Err.keyError
        | _ => Except.error Err.typeError
      -- `Config.evaluate`: `context.update(self.attributes)`, returns `None`.
      | Node.config a _ =>
        match a with
        | TokAttrs.dict m =>
          Except.ok (Option.none,
            ctxUpdate ctx (m.map (fun kv => (kv.1, Value.str kv.2))))
        | _ => Except.error Err.typeError
      -- `Echo.evaluate`. The `try` block covers both the `context[var]`
      -- lookup and the `value()` invocation, so a `KeyError` raised inside
      -- an invoked block is also caught and resolved through the
      -- default/errmsg/fallback chain (the context reverts to its
      -- pre-invocation state here; Python keeps in-place mutations the
      -- invocation made before raising, a difference no claim touches).
      | Node.echo a _ =>
        match a with
        | TokAttrs.dict m =>
          let fb : Except Err (Option Value × Ctx) :=
            match assocGet m "default" with
            | Option.some d => Except.ok (Option.some (Value.str d), ctx)
            | Option.none =>
              match ctxGet ctx "errmsg" with
              | Option.some v => Except.ok (Option.some v, ctx)
              | Option.none => Except.ok (Option.some (Value.str errmsgDefault), ctx)
          match assocGet m "var" with
          | Option.none => Except.error Err.keyError
          | Option.some var =>
            match ctxGet ctx var with
            | Option.some (Value.block bs) =>
              match evtoks bs ctx with
              | Except.ok (s, c) => Except.ok (Option.some (Value.str s), c)
              | Except.error Err.keyError => fb
              | Except.error e => Except.error e
            | Option.some v => Except.ok (Option.some v, ctx)
            | Option.none => fb
        | _ => Except.error Err.typeError
      -- `If.evaluate` (and `Elif.evaluate`, inherited): parse `expr` *at
      -- evaluation time*, evaluate it, then one of children, else-tokens,
      -- or the implicit `None` fall-through.
      | Node.if_ a ch el =>
        match a with
        | TokAttrs.dict m =>
          match assocGet m "expr" with
          | Option.none => Except.error Err.keyError
          | Option.some estr =>
            match ExpressionParser.parse estr with
            | Except.error e => Except.error e
            | Except.ok expr =>
              match Expression.evaluate env expr ctx with
              | Except.error e => Except.error e
              | Except.ok (b, ctx') =>
                if b then
                  match evtoks ch ctx' with
                  | Except.error e => Except.error e
                  | Except.ok (s, c) => Except.ok (Option.some (Value.str s), c)
                else if el.isEmpty then Except.ok (Option.none, ctx')
                else
                  match evtoks el ctx' with
                  | Except.error e => Except.error e
                  | Except.ok (s, c) => Except.ok (Option.some (Value.str s), c)
        | _ => Except.error Err.typeError
      | Node.elif_ a ch el =>
        match a with
        | TokAttrs.dict m =>
          match assocGet m "expr" with
          | Option.none => Except.error Err.keyError
          | Option.some estr =>
            match ExpressionParser.parse estr with
            | Except.error e => Except.error e
            | Except.ok expr =>
              match Expression.evaluate env expr ctx with
              | Except.error e => Except.error e
              | Except.ok (b, ctx') =>
                if b then
                  match evtoks ch ctx' with
                  | Except.error e => Except.error e
                  | Except.ok (s, c) => Except.ok (Option.some (Value.str s), c)
                else if el.isEmpty then Except.ok (Option.none, ctx')
                else
                  match evtoks el ctx' with
                  | Except.error e => Except.error e
                  | Except.ok (s, c) => Except.ok (Option.some (Value.str s), c)
        | _ => Except.error Err.typeError
      -- `Include.evaluate`: the file/virtual configuration check comes
      -- first, then the single fetch, then `set`, then the `stub`
      -- fallback for empty content.
      | Node.include_ a _ =>
        match a with
        | TokAttrs.dict m =>
          let file := assocGet m "file"
          let url := assocGet m "virtual"
          if (truthyS file && truthyS url) || (!truthyS file && !truthyS url) then
            Except.error Err.includeConfigError
          else
            match
              (if truthyS file then
                match env.readFile (file.getD "") with
                | Except.error e => Except.error e
                | Except.ok raw => Except.ok (String.mk (pyStrip raw.data))
              else env.getUrl (url.getD "")) with
            | Except.error e => Except.error e
            | Except.ok content =>
              let setA := assocGet m "set"
              if truthyS setA then
                Except.ok (Option.none, ctxSet ctx (setA.getD "") (Value.str content))
              else
                let stub := assocGet m "stub"
                if content = "" && truthyS stub then
                  match ctxGet ctx (stub.getD "") with
                  | Option.none => Except.error Err.keyError
                  | Option.some (Value.block bs) =>
                    match evtoks bs ctx with
                    | Except.error e => Except.error e
                    | Except.ok (s, c) => Except.ok (Option.some (Value.str s), c)
                  | Option.some v => Except.ok (Option.some v, ctx)
                else Except.ok (Option.some (Value.str content), ctx)
        | _ => Except.error Err.typeError
      -- `Set.evaluate`: `context[var] = value`, returns `None`.
      | Node.setvar a _ =>
        match a with
        | TokAttrs.dict m =>
          match assocGet m "var" with
          | Option.none => Except.error Err.keyError
          | Option.some var =>
            match assocGet m "value" with
            | Option.none => Except.error Err.keyError
            | Option.some val =>
              Except.ok (Option.none, ctxSet ctx var (Value.str val))
        | _ => Except.error Err.typeError

def evalF (env : Env) :
    Nat →
      (Node → Ctx → Except Err (Option Value × Ctx)) ×
      (List Node → Ctx → Except Err (List (Option Value) × Ctx))
  | 0 =>
    (fun _ _ => Except.error Err.recursionLimit,
     fun _ _ => Except.error Err.recursionLimit)
  | n + 1 =>
    let prev := evalF env n
    -- `evaluate_tokens(tokens, context)`: evaluate every node, then
    -- `''.join(filter(None, result))`.
    (nodeEvalBody env (fun ns ctx =>
      match prev.2 ns ctx with
      | Except.error e => Except.error e
      | Except.ok (fs, c) =>
        match joinFrags fs with
        | Except.error e => Except.error e
        | Except.ok s => Except.ok (s, c)),
     fun ns ctx =>
      match ns with
      | [] => Except.ok ([], ctx)
      | a :: rest =>
        match prev.1 a ctx with
        | Except.error e => Except.error e
        | Except.ok (f, c) =>
          match prev.2 rest c with
          | Except.error e => Except.error e
          | Except.ok (fs, c') => Except.ok (f :: fs, c'))

/-- `node.evaluate(context)` at a fuel level. -/
def evalNode (env : Env) (fuel : Nat) : Node → Ctx → Except Err (Option Value × Ctx) :=
  (evalF env fuel).1

/-- The fragment-collecting comprehension of `evaluate_tokens`. -/
def evalList (env : Env) (fuel : Nat) :
    List Node → Ctx → Except Err (List (Option Value) × Ctx) :=
  (evalF env fuel).2

/-- `evaluate_tokens(tokens, context)`: evaluate every node, then join the
truthy fragments. -/
def evaluate_tokens (env : Env) (fuel : Nat) (ns : List Node) (ctx : Ctx) :
    Except Err (String × Ctx) :=
  match evalList env fuel ns ctx with
  | Except.error e => Except.error e
  | Except.ok (fs, c) =>
    match joinFrags fs with
    | Except.error e => Except.error e
    | Except.ok s => Except.ok (s, c)

/-! ## Unfolding equations and fuel stability -/

theorem evalNode_zero (env : Env) (node : Node) (ctx : Ctx) :
    evalNode env 0 node ctx = Except.error Err.recursionLimit := rfl

theorem evalList_zero (env : Env) (ns : List Node) (ctx : Ctx) :
    evalList env 0 ns ctx = Except.error Err.recursionLimit := rfl

theorem evalNode_succ (env : Env) (n : Nat) (node : Node) (ctx : Ctx) :
    evalNode env (n + 1) node ctx =
      nodeEvalBody env (evaluate_tokens env n) node ctx := rfl

theorem evalList_succ_nil (env : Env) (n : Nat) (ctx : Ctx) :
    evalList env (n + 1) [] ctx = Except.ok ([], ctx) := rfl

theorem evalList_succ_cons (env : Env) (n : Nat) (a : Node) (rest : List Node)
    (ctx : Ctx) :
    evalList env (n + 1) (a :: rest) ctx =
      match evalNode env n a ctx with
      | Except.error e => Except.error e
      | Except.ok (f, c) =>
        match evalList env n rest c with
        | Except.error e => Except.error e
        | Except.ok (fs, c') => Except.ok (f :: fs, c') := rfl

/-- `nodeEvalBody` is stable under improving `evtoks`: if `et2` agrees with
`et1` wherever `et1` did not run out of fuel, the same holds of the
bodies. -/
theorem nodeEvalBody_stable (env : Env)
    (et1 et2 : List Node → Ctx → Except Err (String × Ctx))
    (hstep : ∀ ns c, et1 ns c ≠ Except.error Err.recursionLimit → et2 ns c = et1 ns c)
    (node : Node) (ctx : Ctx)
    (h : nodeEvalBody env et1 node ctx ≠ Except.error Err.recursionLimit) :
    nodeEvalBody env et2 node ctx = nodeEvalBody env et1 node ctx := by
  have base : ∀ (ch : List Node),
      (match et1 ch ctx with
        | Except.error e => Except.error e
        | Except.ok (s, c) => Except.ok (Option.some (Value.str s), c)) ≠
          (Except.error Err.recursionLimit : Except Err (Option Value × Ctx)) →
      et2 ch ctx = et1 ch ctx := by
    intro ch hne
    apply hstep
    intro hbad
    rw [hbad] at hne
    exact hne rfl
  cases node with
  | node a ch =>
    simp only [nodeEvalBody] at h ⊢
    rw [base ch h]
  | noop a ch =>
    simp only [nodeEvalBody] at h ⊢
    rw [base ch h]
  | endblock a ch =>
    simp only [nodeEvalBody] at h ⊢
    rw [base ch h]
  | endif a ch =>
    simp only [nodeEvalBody] at h ⊢
    rw [base ch h]
  | else_ a ch =>
    simp only [nodeEvalBody] at h ⊢
    rw [base ch h]
  | text a ch => rfl
  | block a ch => rfl
  | config a ch => rfl
  | setvar a ch => rfl
  | echo a ch =>
    simp only [nodeEvalBody] at h ⊢
    cases a with
    | none => rfl
    | str s => rfl
    | dict m =>
      cases hv : assocGet m "var" with
      | none => simp [hv]
      | some var =>
        simp only [hv] at h ⊢
        cases hg : ctxGet ctx var with
        | none => simp [hg]
        | some v =>
          simp only [hg] at h ⊢
          cases v with
          | str s => rfl
          | dict d => rfl
          | block bs =>
            dsimp only at h ⊢
            have hne : et1 bs ctx ≠ Except.error Err.recursionLimit := by
              intro hbad
              rw [hbad] at h
              exact h rfl
            rw [hstep bs ctx hne]
  | if_ a ch el =>
    simp only [nodeEvalBody] at h ⊢
    cases a with
    | none => rfl
    | str s => rfl
    | dict m =>
      cases he : assocGet m "expr" with
      | none => simp [he]
      | some estr =>
        simp only [he] at h ⊢
        cases hp : ExpressionParser.parse estr with
        | error e => simp [hp]
        | ok expr =>
          simp only [hp] at h ⊢
          cases hev : Expression.evaluate env expr ctx with
          | error e => simp [hev]
          | ok bc =>
            obtain ⟨b, ctx'⟩ := bc
            simp only [hev] at h ⊢
            cases b with
            | true =>
              simp only [if_true] at h ⊢
              have hne : et1 ch ctx' ≠ Except.error Err.recursionLimit := by
                intro hbad
                rw [hbad] at h
                exact h rfl
              rw [hstep ch ctx' hne]
            | false =>
              simp only [Bool.false_eq_true, if_false] at h ⊢
              by_cases hel : el.isEmpty
              · simp [hel]
              · simp only [hel, Bool.false_eq_true, if_false] at h ⊢
                have hne : et1 el ctx' ≠ Except.error Err.recursionLimit := by
                  intro hbad
                  rw [hbad] at h
                  exact h rfl
                rw [hstep el ctx' hne]
  | elif_ a ch el =>
    simp only [nodeEvalBody] at h ⊢
    cases a with
    | none => rfl
    | str s => rfl
    | dict m =>
      cases he : assocGet m "expr" with
      | none => simp [he]
      | some estr =>
        simp only [he] at h ⊢
        cases hp : ExpressionParser.parse estr with
        | error e => simp [hp]
        | ok expr =>
          simp only [hp] at h ⊢
          cases hev : Expression.evaluate env expr ctx with
          | error e => simp [hev]
          | ok bc =>
            obtain ⟨b, ctx'⟩ := bc
            simp only [hev] at h ⊢
            cases b with
            | true =>
              simp only [if_true] at h ⊢
              have hne : et1 ch ctx' ≠ Except.error Err.recursionLimit := by
                intro hbad
                rw [hbad] at h
                exact h rfl
              rw [hstep ch ctx' hne]
            | false =>
              simp only [Bool.false_eq_true, if_false] at h ⊢
              by_cases hel : el.isEmpty
              · simp [hel]
              · simp only [hel, Bool.false_eq_true, if_false] at h ⊢
                have hne : et1 el ctx' ≠ Except.error Err.recursionLimit := by
                  intro hbad
                  rw [hbad] at h
                  exact h rfl
                rw [hstep el ctx' hne]
  | include_ a ch =>
    simp only [nodeEvalBody] at h ⊢
    cases a with
    | none => rfl
    | str s => rfl
    | dict m =>
      by_cases hcfg :
          (truthyS (assocGet m "file") && truthyS (assocGet m "virtual")) ||
            (!truthyS (assocGet m "file") && !truthyS (assocGet m "virtual"))
      · simp [hcfg]
      · simp only [hcfg, Bool.false_eq_true, if_false] at h ⊢
        cases hc :
            (if truthyS (assocGet m "file") then
              match env.readFile ((assocGet m "file").getD "") with
              | Except.error e => Except.error e
              | Except.ok raw => Except.ok (String.mk (pyStrip raw.data))
            else env.getUrl ((assocGet m "virtual").getD "")) with
        | error e => simp [hc]
        | ok content =>
          simp only [hc] at h ⊢
          by_cases hset : truthyS (assocGet m "set")
          · simp [hset]
          · simp only [hset, Bool.false_eq_true, if_false] at h ⊢
            by_cases hstub : (content = "" && truthyS (assocGet m "stub")) = true
            · simp only [hstub, eq_self_iff_true, if_true] at h ⊢
              cases hg : ctxGet ctx ((assocGet m "stub").getD "") with
              | none => simp [hg]
              | some v =>
                simp only [hg] at h ⊢
                cases v with
                | str s => rfl
                | dict d => rfl
                | block bs =>
                  dsimp only at h ⊢
                  have hne : et1 bs ctx ≠ Except.error Err.recursionLimit := by
                    intro hbad
                    rw [hbad] at h
                    exact h rfl
                  rw [hstep bs ctx hne]
            · simp only [hstub, Bool.false_eq_true, if_false] at h ⊢

/-- Stability of `evaluate_tokens` follows from stability of the
fragment-collecting pass. -/
theorem evaluate_tokens_step (env : Env) (n : Nat)
    (hQ : ∀ ns ctx, evalList env n ns ctx ≠ Except.error Err.recursionLimit →
      evalList env (n + 1) ns ctx = evalList env n ns ctx) :
    ∀ ns ctx, evaluate_tokens env n ns ctx ≠ Except.error Err.recursionLimit →
      evaluate_tokens env (n + 1) ns ctx = evaluate_tokens env n ns ctx := by
  intro ns ctx h
  unfold evaluate_tokens at h ⊢
  have hne : evalList env n ns ctx ≠ Except.error Err.recursionLimit := by
    intro hbad
    rw [hbad] at h
    exact h rfl
  rw [hQ ns ctx hne]

/-- One fuel step preserves every completed (non-fuel-exhausted) result of
the evaluator, for nodes and node lists simultaneously. -/
theorem eval_step (env : Env) : ∀ n : Nat,
    (∀ node ctx, evalNode env n node ctx ≠ Except.error Err.recursionLimit →
      evalNode env (n + 1) node ctx = evalNode env n node ctx) ∧
    (∀ ns ctx, evalList env n ns ctx ≠ Except.error Err.recursionLimit →
      evalList env (n + 1) ns ctx = evalList env n ns ctx) := by
  intro n
  induction n with
  | zero =>
    constructor
    · intro node ctx h
      exact absurd rfl h
    · intro ns ctx h
      exact absurd rfl h
  | succ n ih =>
    constructor
    · intro node ctx h
      rw [evalNode_succ] at h
      rw [evalNode_succ, evalNode_succ]
      exact nodeEvalBody_stable env (evaluate_tokens env n) (evaluate_tokens env (n + 1))
        (evaluate_tokens_step env n ih.2) node ctx h
    · intro ns ctx h
      cases ns with
      | nil => rfl
      | cons a rest =>
        rw [evalList_succ_cons] at h
        rw [evalList_succ_cons, evalList_succ_cons]
        cases ha : evalNode env n a ctx with
        | error e =>
          simp only [ha] at h
          have hne : evalNode env n a ctx ≠ Except.error Err.recursionLimit := by
            intro hbad
            rw [hbad] at ha
            cases ha
            exact h rfl
          rw [ih.1 a ctx hne, ha]
        | ok fc =>
          obtain ⟨f, c⟩ := fc
          simp only [ha] at h
          have hne : evalNode env n a ctx ≠ Except.error Err.recursionLimit := by
            rw [ha]
            intro hbad
            cases hbad
          rw [ih.1 a ctx hne, ha]
          dsimp only
          cases hb : evalList env n rest c with
          | error e =>
            simp only [hb] at h
            have hne2 : evalList env n rest c ≠ Except.error Err.recursionLimit := by
              intro hbad
              rw [hbad] at hb
              cases hb
              exact h rfl
            rw [ih.2 rest c hne2, hb]
          | ok fsc =>
            have hne2 : evalList env n rest c ≠ Except.error Err.recursionLimit := by
              rw [hb]
              intro hbad
              cases hbad
            rw [ih.2 rest c hne2, hb]

/-- A completed node evaluation is a fixed point of more fuel. -/
theorem evalNode_mono (env : Env) {n m : Nat} (hnm : n ≤ m) (node : Node) (ctx : Ctx)
    (h : evalNode env n node ctx ≠ Except.error Err.recursionLimit) :
    evalNode env m node ctx = evalNode env n node ctx := by
  induction m, hnm using Nat.le_induction with
  | base => rfl
  | succ m hnm ih =>
    rw [(eval_step env m).1 node ctx (by rw [ih]; exact h), ih]

/-- A completed list evaluation is a fixed point of more fuel. -/
theorem evalList_mono (env : Env) {n m : Nat} (hnm : n ≤ m) (ns : List Node) (ctx : Ctx)
    (h : evalList env n ns ctx ≠ Except.error Err.recursionLimit) :
    evalList env m ns ctx = evalList env n ns ctx := by
  induction m, hnm using Nat.le_induction with
  | base => rfl
  | succ m hnm ih =>
    rw [(eval_step env m).2 ns ctx (by rw [ih]; exact h), ih]

/-- A completed `evaluate_tokens` run is a fixed point of more fuel. -/
theorem evaluate_tokens_mono (env : Env) {n m : Nat} (hnm : n ≤ m) (ns : List Node)
    (ctx : Ctx)
    (h : evaluate_tokens env n ns ctx ≠ Except.error Err.recursionLimit) :
    evaluate_tokens env m ns ctx = evaluate_tokens env n ns ctx := by
  unfold evaluate_tokens at h ⊢
  have hne : evalList env n ns ctx ≠ Except.error Err.recursionLimit := by
    intro hbad
    rw [hbad] at h
    exact h rfl
  rw [evalList_mono env hnm ns ctx hne]

/-! ## Claim-level definitions -/

/-- A trivial collaborator environment for concrete runs: no regex ever
matches, every fetch fails. -/
def stubEnv : Env where
  reMatch := fun _ _ => Option.none
  readFile := fun _ => Except.error Err.fetchError
  getUrl := fun _ => Except.error Err.fetchError

/-- Recognizer for the `Noop` class. -/
def Node.isNoop : Node → Bool
  | Node.noop _ _ => true
  | _ => false

/-- The eleven keys of the `token_factory` registry. -/
def registryNames : List String :=
  ["TEXT", "BLOCK", "ENDBLOCK", "CONFIG", "ECHO", "IF", "ELIF", "ELSE",
   "ENDIF", "INCLUDE", "SET"]

/-! ## C1 — an unterminated `if` directive and the end-marker failure -/

/-- The document of claim C1: the `if` directive itself is properly closed
by `-->`; only the `endif` is missing. -/
def c1doc : String := "<!--# if expr=\"$name\" -->foo"

/-- The tree the parser actually returns for `c1doc`: the trailing text is
captured as the still-open `if` node's child. -/
def c1tree : Node :=
  Node.node TokAttrs.none
    [Node.if_ (TokAttrs.dict [("expr", "$name")])
      [Node.text (TokAttrs.str "foo") []] []]

/-- C1, claim as stated, refuted: parsing `<!--# if expr="$name" -->foo`
does not raise anything — it succeeds and returns a tree. -/
theorem c1_counterexample : Parser.parse c1doc = Except.ok c1tree := rfl

/-- C1, amended: the lexer's end marker is the `-->` delimiter, not
`endif`. Parsing the claim's document succeeds, the dangling `if` captures
`foo`, and evaluating the tree against an empty context silently renders
the empty string; the end-marker-not-found failure is raised exactly when
a start delimiter has no closing `-->`, as in `<!--# if expr="$name" foo`. -/
theorem c1_amended :
    Parser.parse c1doc = Except.ok c1tree ∧
    evalNode stubEnv 10 c1tree [] = Except.ok (Option.some (Value.str ""), []) ∧
    Parser.parse "<!--# if expr=\"$name\" foo" = Except.error Err.endMarkerNotFound :=
  ⟨rfl, rfl, rfl⟩

/-! ## C2 — where expression grammar errors surface -/

/-- The document of claim C2: well-formed attributes, but the `expr` value
`name` does not match the expression grammar (no `$`). -/
def c2doc : String := "<!--# if expr=\"name\" --><!--# endif -->"

def c2tree : Node :=
  Node.node TokAttrs.none
    [Node.if_ (TokAttrs.dict [("expr", "name")]) [] []]

/-- C2, claim as stated, refuted: `Parser.parse` accepts the document even
though the `expr` attribute violates the expression grammar — the grammar
error is not raised during parsing. -/
theorem c2_counterexample : Parser.parse c2doc = Except.ok c2tree := rfl

/-- C2, amended: `If.evaluate` (inherited by `Elif`) calls
`ExpressionParser().parse` lazily, so an `expr` that does not match the
expression grammar raises the grammar error when the node is *evaluated*;
`Parser.parse` itself succeeds on such documents (it only runs the
attribute grammar), as the concrete document shows. -/
theorem c2_amended :
    (∀ (env : Env) (n : Nat) (m : List (String × String)) (ch el : List Node)
      (ctx : Ctx) (estr : String),
      assocGet m "expr" = Option.some estr →
      ExpressionParser.parse estr = Except.error Err.grammarError →
      evalNode env (n + 1) (Node.if_ (TokAttrs.dict m) ch el) ctx =
          Except.error Err.grammarError ∧
      evalNode env (n + 1) (Node.elif_ (TokAttrs.dict m) ch el) ctx =
          Except.error Err.grammarError) ∧
    Parser.parse c2doc = Except.ok c2tree ∧
    evalNode stubEnv 10 c2tree [] = Except.error Err.grammarError := by
  refine ⟨?_, rfl, rfl⟩
  intro env n m ch el ctx estr h1 h2
  constructor
  · rw [evalNode_succ]
    simp only [nodeEvalBody, h1, h2]
  · rw [evalNode_succ]
    simp only [nodeEvalBody, h1, h2]

/-- Witness for the amended C2 at a concrete input. -/
theorem c2_amended_witness :
    assocGet [("expr", "name")] "expr" = Option.some "name" ∧
    ExpressionParser.parse "name" = Except.error Err.grammarError ∧
    evalNode stubEnv 1 (Node.if_ (TokAttrs.dict [("expr", "name")]) [] []) [] =
      Except.error Err.grammarError :=
  ⟨rfl, rfl,
    (c2_amended.1 stubEnv 0 [("expr", "name")] [] [] [] "name" rfl rfl).1⟩

/-! ## C10 — unrecognized directive verbs and the registry -/

/-- C10, claim as stated, refuted: `TEXT` is not one of the ten directive
names, yet `<!--# text -->` parses fine — the registry has an eleventh
key, `TEXT`, so that verb is looked up successfully and becomes an inert
`Text` node. -/
theorem c10_counterexample :
    Parser.parse "<!--# text -->" =
      Except.ok (Node.node TokAttrs.none [Node.text TokAttrs.none []]) := rfl

set_option maxHeartbeats 1000000

/-- C10, amended: a directive verb outside the *eleven* registry keys (the
ten directive names plus `TEXT`) makes `token_factory` fail with the
`KeyError` of the registry lookup, so `Parser.parse` fails on any document
containing such a directive (shown concretely for `<!--# foobar -->`);
no key maps to `Noop`; and the extra key `TEXT` makes `<!--# text -->`
parse as an inert text node instead of failing. -/
theorem c10_amended :
    (∀ (name : String) (attrs : TokAttrs), name ∉ registryNames →
      token_factory name attrs = Except.error Err.keyError) ∧
    (∀ (name : String) (attrs : TokAttrs) (node : Node),
      token_factory name attrs = Except.ok node → node.isNoop = false) ∧
    Parser.parse "<!--# foobar -->" = Except.error Err.keyError ∧
    Parser.parse "<!--# text -->" =
      Except.ok (Node.node TokAttrs.none [Node.text TokAttrs.none []]) := by
  refine ⟨?_, ?_, rfl, rfl⟩
  · intro name attrs h
    simp only [registryNames, List.mem_cons, List.not_mem_nil, or_false, not_or] at h
    obtain ⟨h1, h2, h3, h4, h5, h6, h7, h8, h9, h10, h11⟩ := h
    simp [token_factory, h1, h2, h3, h4, h5, h6, h7, h8, h9, h10, h11]
  · intro name attrs node h
    unfold token_factory at h
    repeat' split at h
    all_goals first
      | (injection h with h2; subst h2; rfl)
      | (cases h)

set_option maxHeartbeats 200000

/-- Witness for the amended C10 at concrete inputs. -/
theorem c10_amended_witness :
    "FOOBAR" ∉ registryNames ∧
    token_factory "FOOBAR" TokAttrs.none = Except.error Err.keyError ∧
    token_factory "IF" TokAttrs.none = Except.ok (Node.if_ TokAttrs.none [] []) ∧
    (Node.if_ TokAttrs.none [] []).isNoop = false :=
  ⟨by decide, c10_amended.1 "FOOBAR" TokAttrs.none (by decide), rfl,
    c10_amended.2.1 "IF" TokAttrs.none (Node.if_ TokAttrs.none [] []) rfl⟩

/-! ## C4 — `echo` with a missing variable -/

/-- C4: when the `var` key of an `echo` node is absent from the context,
`Echo.evaluate` never raises: it resolves, in priority order, the node's
`default` attribute, then the context's `errmsg` value, then the fixed
fallback string, and leaves the context untouched. -/
theorem c4_echo_missing_var (env : Env) (n : Nat) (m : List (String × String))
    (var : String) (ch : List Node) (ctx : Ctx)
    (hvar : assocGet m "var" = Option.some var)
    (hmiss : ctxGet ctx var = Option.none) :
    evalNode env (n + 1) (Node.echo (TokAttrs.dict m) ch) ctx =
      Except.ok (Option.some
        (match assocGet m "default" with
         | Option.some d => Value.str d
         | Option.none =>
           match ctxGet ctx "errmsg" with
           | Option.some v => v
           | Option.none => Value.str errmsgDefault), ctx) := by
  rw [evalNode_succ]
  simp only [nodeEvalBody, hvar, hmiss]
  cases hd : assocGet m "default" with
  | some d => simp [hd]
  | none =>
    cases he : ctxGet ctx "errmsg" with
    | some v => simp [hd, he]
    | none => simp [hd, he]

/-- Witness for C4: all three fallback stages at concrete inputs. -/
theorem c4_echo_missing_var_witness :
    (assocGet [("var", "x"), ("default", "bar")] "var" = Option.some "x" ∧
      ctxGet [] "x" = Option.none ∧
      evalNode stubEnv 1 (Node.echo (TokAttrs.dict [("var", "x"), ("default", "bar")]) []) [] =
        Except.ok (Option.some (Value.str "bar"), [])) ∧
    (evalNode stubEnv 1 (Node.echo (TokAttrs.dict [("var", "x")]) [])
        [("errmsg", Value.str "boom")] =
      Except.ok (Option.some (Value.str "boom"), [("errmsg", Value.str "boom")])) ∧
    (evalNode stubEnv 1 (Node.echo (TokAttrs.dict [("var", "x")]) []) [] =
      Except.ok (Option.some (Value.str errmsgDefault), [])) := by
  refine ⟨⟨rfl, rfl, ?_⟩, ?_, ?_⟩
  · rw [c4_echo_missing_var stubEnv 0 [("var", "x"), ("default", "bar")] "x" [] [] rfl rfl]
    rfl
  · rw [c4_echo_missing_var stubEnv 0 [("var", "x")] "x" []
      [("errmsg", Value.str "boom")] rfl rfl]
    rfl
  · rw [c4_echo_missing_var stubEnv 0 [("var", "x")] "x" [] [] rfl rfl]
    rfl

/-! ## C7 — misconfigured `include` -/

/-- The guard of `Include.evaluate`:
`all([file, url]) or not any([file, url])` under Python truthiness. -/
def includeMisconfigured (m : List (String × String)) : Bool :=
  (truthyS (assocGet m "file") && truthyS (assocGet m "virtual")) ||
    (!truthyS (assocGet m "file") && !truthyS (assocGet m "virtual"))

/-- Evaluating node lists over an append splits into the two runs, the
second starting from the first one's final context with the remaining
fuel. -/
theorem evalList_append (env : Env) :
    ∀ (xs : List Node) (F : Nat) (ys : List Node) (ctx : Ctx),
      evalList env F (xs ++ ys) ctx =
        match evalList env F xs ctx with
        | Except.error e => Except.error e
        | Except.ok (fs1, c1) =>
          match evalList env (F - xs.length) ys c1 with
          | Except.error e => Except.error e
          | Except.ok (fs2, c2) => Except.ok (fs1 ++ fs2, c2) := by
  intro xs
  induction xs with
  | nil =>
    intro F ys ctx
    cases F with
    | zero => rfl
    | succ n =>
      simp only [List.nil_append, evalList_succ_nil, List.length_nil, Nat.sub_zero]
      cases h : evalList env (n + 1) ys ctx with
      | error e => rfl
      | ok p =>
        obtain ⟨fs, c⟩ := p
        simp
  | cons x xs ih =>
    intro F ys ctx
    cases F with
    | zero => rfl
    | succ n =>
      simp only [List.cons_append, evalList_succ_cons]
      cases hx : evalNode env n x ctx with
      | error e => rfl
      | ok p =>
        obtain ⟨f, c0⟩ := p
        dsimp only
        rw [ih n ys c0]
        simp only [List.length_cons, Nat.add_sub_add_right]
        cases h1 : evalList env n xs c0 with
        | error e => rfl
        | ok p1 =>
          obtain ⟨fs1, c1⟩ := p1
          dsimp only
          cases h2 : evalList env (n - xs.length) ys c1 with
          | error e => rfl
          | ok p2 =>
            obtain ⟨fs2, c2⟩ := p2
            simp

/-- C7: an `include` whose attributes set both `file` and `virtual`, or
neither (an absent or empty value being falsy), fails with the
configuration error at evaluation time: the result does not depend on the
collaborator environment (no fetch is attempted), no context survives in
the error, and the error propagates out of any enclosing `evaluate_tokens`
run, aborting the render of the whole node list. -/
theorem c7_include_misconfigured :
    (∀ (env : Env) (n : Nat) (m : List (String × String)) (ch : List Node) (ctx : Ctx),
      includeMisconfigured m = true →
      evalNode env (n + 1) (Node.include_ (TokAttrs.dict m) ch) ctx =
        Except.error Err.includeConfigError) ∧
    (∀ (env : Env) (F : Nat) (ns1 ns2 : List Node) (m : List (String × String))
      (ch : List Node) (ctx : Ctx) (fs1 : List (Option Value)) (c1 : Ctx),
      includeMisconfigured m = true →
      evalList env F ns1 ctx = Except.ok (fs1, c1) →
      ns1.length + 2 ≤ F →
      evalList env F (ns1 ++ Node.include_ (TokAttrs.dict m) ch :: ns2) ctx =
          Except.error Err.includeConfigError ∧
      evaluate_tokens env F (ns1 ++ Node.include_ (TokAttrs.dict m) ch :: ns2) ctx =
          Except.error Err.includeConfigError) := by
  have part1 : ∀ (env : Env) (n : Nat) (m : List (String × String)) (ch : List Node)
      (ctx : Ctx), includeMisconfigured m = true →
      evalNode env (n + 1) (Node.include_ (TokAttrs.dict m) ch) ctx =
        Except.error Err.includeConfigError := by
    intro env n m ch ctx h
    rw [evalNode_succ]
    simp only [nodeEvalBody]
    rw [if_pos]
    exact h
  refine ⟨part1, ?_⟩
  intro env F ns1 ns2 m ch ctx fs1 c1 hbad hok hF
  have hlist : evalList env F (ns1 ++ Node.include_ (TokAttrs.dict m) ch :: ns2) ctx =
      Except.error Err.includeConfigError := by
    rw [evalList_append env ns1 F _ ctx, hok]
    dsimp only
    obtain ⟨k, hk⟩ : ∃ k, F - ns1.length = k + 2 :=
      ⟨F - ns1.length - 2, by omega⟩
    rw [hk, evalList_succ_cons, part1 env k m ch c1 hbad]
  refine ⟨hlist, ?_⟩
  unfold evaluate_tokens
  rw [hlist]

/-- Witness for C7: both misconfigurations at concrete inputs, inside a
concrete node list. -/
theorem c7_include_misconfigured_witness :
    includeMisconfigured [("file", "a"), ("virtual", "b")] = true ∧
    includeMisconfigured [("set", "x")] = true ∧
    evalNode stubEnv 1
        (Node.include_ (TokAttrs.dict [("file", "a"), ("virtual", "b")]) []) [] =
      Except.error Err.includeConfigError ∧
    evalList stubEnv 3 [Node.text (TokAttrs.str "t") [],
        Node.include_ (TokAttrs.dict [("set", "x")]) []] [] =
      Except.error Err.includeConfigError := by
  refine ⟨by decide, by decide,
    c7_include_misconfigured.1 stubEnv 0 [("file", "a"), ("virtual", "b")] [] []
      (by decide), ?_⟩
  have h := (c7_include_misconfigured.2 stubEnv 3 [Node.text (TokAttrs.str "t") []]
    [] [("set", "x")] [] [] [Option.some (Value.str "t")] [] (by decide) rfl
    (by decide)).1
  simpa using h

/-! ## C3 — lazy blocks -/

set_option maxRecDepth 8000

/-- The C3 scenario document: a block capturing `echo var="y"`, invoked
twice with a mutation of `y` before each invocation. -/
def c3doc : String :=
  "<!--# block name=\"x\" --><!--# echo var=\"y\" --><!--# endblock -->" ++
  "<!--# set var=\"y\" value=\"1\" --><!--# echo var=\"x\" -->" ++
  "<!--# set var=\"y\" value=\"2\" --><!--# echo var=\"x\" -->"

/-- An environment whose file collaborator returns empty content, for the
`stub` path of C3. -/
def emptyFileEnv : Env where
  reMatch := fun _ _ => Option.none
  readFile := fun _ => Except.ok ""
  getUrl := fun _ => Except.ok ""

/-- C3: `Block.evaluate` produces no fragment and only installs the
closure (the captured children) under `context[name]`; invoking the
closure — through `Echo` on the name or through an `include`'s empty-
content `stub` path — runs `evaluate_tokens` on the captured children
against the context as it is at *invocation* time; and the concrete
scenario shows two invocations re-evaluating the children twice, each
seeing the mutation made just before it (`"12"`, not `"11"` or a cached
value). -/
theorem c3_block_lazy :
    (∀ (env : Env) (n : Nat) (m : List (String × String)) (name : String)
      (ch : List Node) (ctx : Ctx),
      assocGet m "name" = Option.some name →
      evalNode env (n + 1) (Node.block (TokAttrs.dict m) ch) ctx =
        Except.ok (Option.none, ctxSet ctx name (Value.block ch))) ∧
    (∀ (env : Env) (n : Nat) (m : List (String × String)) (var : String)
      (bs : List Node) (ch : List Node) (ctx : Ctx) (s : String) (c : Ctx),
      assocGet m "var" = Option.some var →
      ctxGet ctx var = Option.some (Value.block bs) →
      evaluate_tokens env n bs ctx = Except.ok (s, c) →
      evalNode env (n + 1) (Node.echo (TokAttrs.dict m) ch) ctx =
        Except.ok (Option.some (Value.str s), c)) ∧
    (∀ (env : Env) (n : Nat) (m : List (String × String)) (stub : String)
      (bs : List Node) (ch : List Node) (ctx : Ctx) (raw s : String) (c : Ctx),
      truthyS (assocGet m "file") = true →
      truthyS (assocGet m "virtual") = false →
      env.readFile ((assocGet m "file").getD "") = Except.ok raw →
      String.mk (pyStrip raw.data) = "" →
      truthyS (assocGet m "set") = false →
      assocGet m "stub" = Option.some stub →
      stub ≠ "" →
      ctxGet ctx stub = Option.some (Value.block bs) →
      evaluate_tokens env n bs ctx = Except.ok (s, c) →
      evalNode env (n + 1) (Node.include_ (TokAttrs.dict m) ch) ctx =
        Except.ok (Option.some (Value.str s), c)) ∧
    (Parser.parse c3doc =
      Except.ok (Node.node TokAttrs.none
        [Node.block (TokAttrs.dict [("name", "x")])
           [Node.echo (TokAttrs.dict [("var", "y")]) []],
         Node.setvar (TokAttrs.dict [("var", "y"), ("value", "1")]) [],
         Node.echo (TokAttrs.dict [("var", "x")]) [],
         Node.setvar (TokAttrs.dict [("var", "y"), ("value", "2")]) [],
         Node.echo (TokAttrs.dict [("var", "x")]) []]) ∧
     evalNode stubEnv 30
        (Node.node TokAttrs.none
          [Node.block (TokAttrs.dict [("name", "x")])
             [Node.echo (TokAttrs.dict [("var", "y")]) []],
           Node.setvar (TokAttrs.dict [("var", "y"), ("value", "1")]) [],
           Node.echo (TokAttrs.dict [("var", "x")]) [],
           Node.setvar (TokAttrs.dict [("var", "y"), ("value", "2")]) [],
           Node.echo (TokAttrs.dict [("var", "x")]) []]) [] =
      Except.ok (Option.some (Value.str "12"),
        [("x", Value.block [Node.echo (TokAttrs.dict [("var", "y")]) []]),
         ("y", Value.str "2")])) := by
  refine ⟨?_, ?_, ?_, rfl, rfl⟩
  · intro env n m name ch ctx hname
    rw [evalNode_succ]
    simp only [nodeEvalBody, hname]
  · intro env n m var bs ch ctx s c hvar hget hinv
    rw [evalNode_succ]
    simp only [nodeEvalBody, hvar, hget, hinv]
  · intro env n m stub bs ch ctx raw s c hfile hvirt hread hstrip hset hstub
      hstubne hget hinv
    rw [evalNode_succ]
    simp only [nodeEvalBody, hfile, hvirt, Bool.true_and, Bool.and_self,
      Bool.not_true, Bool.not_false, Bool.false_and, Bool.and_false,
      Bool.or_false, Bool.false_or, Bool.false_eq_true, if_false, if_true,
      hread, hset, hstub, hstubne]
    have hstubT : truthyS (assocGet m "stub") = true := by
      rw [hstub]
      simpa [truthyS] using hstubne
    simp only [hstrip, hstubT, hstub, Option.getD_some, hget, hinv]
    simp
    intro hcon
    have htrue : truthyS (Option.some stub) = true := by
      rw [← hstub]
      exact hstubT
    rw [htrue] at hcon
    cases hcon

/-- Witness for C3 at concrete inputs: install, invoke via `echo`, invoke
via `include ... stub=`. -/
theorem c3_block_lazy_witness :
    (assocGet [("name", "x")] "name" = Option.some "x" ∧
      evalNode stubEnv 1 (Node.block (TokAttrs.dict [("name", "x")])
          [Node.text (TokAttrs.str "hi") []]) [] =
        Except.ok (Option.none,
          [("x", Value.block [Node.text (TokAttrs.str "hi") []])])) ∧
    (evaluate_tokens stubEnv 5 [Node.text (TokAttrs.str "hi") []]
        [("b", Value.block [Node.text (TokAttrs.str "hi") []])] =
      Except.ok ("hi", [("b", Value.block [Node.text (TokAttrs.str "hi") []])]) ∧
      evalNode stubEnv 6 (Node.echo (TokAttrs.dict [("var", "b")]) [])
          [("b", Value.block [Node.text (TokAttrs.str "hi") []])] =
        Except.ok (Option.some (Value.str "hi"),
          [("b", Value.block [Node.text (TokAttrs.str "hi") []])])) ∧
    (emptyFileEnv.readFile "f" = Except.ok "" ∧
      evalNode emptyFileEnv 6
          (Node.include_ (TokAttrs.dict [("file", "f"), ("stub", "b")]) [])
          [("b", Value.block [Node.text (TokAttrs.str "hi") []])] =
        Except.ok (Option.some (Value.str "hi"),
          [("b", Value.block [Node.text (TokAttrs.str "hi") []])])) := by
  refine ⟨⟨rfl, ?_⟩, ⟨rfl, ?_⟩, rfl, ?_⟩
  · exact c3_block_lazy.1 stubEnv 0 [("name", "x")] "x"
      [Node.text (TokAttrs.str "hi") []] [] rfl
  · exact c3_block_lazy.2.1 stubEnv 5 [("var", "b")] "b"
      [Node.text (TokAttrs.str "hi") []] []
      [("b", Value.block [Node.text (TokAttrs.str "hi") []])] "hi" _ rfl rfl rfl
  · exact c3_block_lazy.2.2.1 emptyFileEnv 5 [("file", "f"), ("stub", "b")] "b"
      [Node.text (TokAttrs.str "hi") []] []
      [("b", Value.block [Node.text (TokAttrs.str "hi") []])] "" "hi" _ rfl rfl
      rfl rfl rfl rfl (by decide) rfl rfl

/-! ## C6 — regex expressions and capture injection -/

/-- The string handed to `re.match`: `context.get(variable, '')` — the
empty string when the variable is absent, its value when that value is a
string, undefined (`TypeError`) otherwise. -/
def regexInput (ctx : Ctx) (v : String) : Option String :=
  match ctxGet ctx v with
  | Option.none => Option.some ""
  | Option.some (Value.str s) => Option.some s
  | Option.some _ => Option.none

/-- C6: for `$var = /re/` and `$var != /re/`, the result is whether the
regex matched `context.get(var, '')` (negated for `!=`), and the match's
named capture groups are merged into the context exactly when the result
is true and a match occurred; `groupdictD` maps a group that did not
participate to the *empty dict* (the `groupdict({})` default), never to a
null, so such groups yield an empty value rather than an absent merge. -/
theorem c6_regex_expression (env : Env) (v op re : String) (txt : Option String)
    (ctx : Ctx) (input : String)
    (hre : re ≠ "") (hop : op = "=" ∨ op = "!=")
    (hin : regexInput ctx v = Option.some input) :
    Expression.evaluate env
        ⟨Option.some v, Option.some op, txt, Option.some re⟩ ctx =
      Except.ok
        ((if op = "=" then (env.reMatch re input).isSome
          else !(env.reMatch re input).isSome),
         if ((if op = "=" then (env.reMatch re input).isSome
              else !(env.reMatch re input).isSome) ∧
             (env.reMatch re input).isSome) then
           ctxUpdate ctx (groupdictD ((env.reMatch re input).getD []))
         else ctx) := by
  have hret : truthyS (Option.some re) = true := by
    simpa [truthyS] using hre
  unfold Expression.evaluate
  dsimp only
  rw [hret]
  simp only [if_true]
  have hinput :
      (match ctxGet ctx v with
        | Option.some (Value.str s) => Except.ok s
        | Option.some _ => Except.error Err.typeError
        | Option.none => Except.ok "") = (Except.ok input : Except Err String) := by
    unfold regexInput at hin
    cases hv : ctxGet ctx v with
    | none =>
      rw [hv] at hin
      cases hin
      rfl
    | some val =>
      rw [hv] at hin
      cases val with
      | str s =>
        cases hin
        rfl
      | dict d => cases hin
      | block bs => cases hin
  rw [hinput]
  rcases hop with hop | hop
  · subst hop
    simp only [getOperatorFunc]
    cases hm : env.reMatch re input with
    | none => simp [hm]
    | some gs => simp [hm]
  · subst hop
    simp only [getOperatorFunc]
    cases hm : env.reMatch re input with
    | none => simp [hm]
    | some gs => simp [hm]

/-- The regex oracle of the C6 witness: one pattern matching one input,
with a participating group `domain` and a non-participating group `opt`. -/
def c6env : Env where
  reMatch := fun pat input =>
    if pat = "(.+)@(?P<domain>.+)" && input = "test@test.com" then
      Option.some [("domain", Option.some "test.com"), ("opt", Option.none)]
    else Option.none
  readFile := fun _ => Except.error Err.fetchError
  getUrl := fun _ => Except.error Err.fetchError

/-- Witness for C6: a successful `=` match injects `domain` as a string
and the non-participating `opt` as the empty dict. -/
theorem c6_regex_expression_witness :
    ("(.+)@(?P<domain>.+)" ≠ "" ∧
      regexInput [("name", Value.str "test@test.com")] "name" =
        Option.some "test@test.com") ∧
    Expression.evaluate c6env
        ⟨Option.some "name", Option.some "=", Option.none,
          Option.some "(.+)@(?P<domain>.+)"⟩
        [("name", Value.str "test@test.com")] =
      Except.ok (true,
        [("name", Value.str "test@test.com"),
         ("domain", Value.str "test.com"), ("opt", Value.dict [])]) := by
  refine ⟨⟨by decide, rfl⟩, ?_⟩
  rw [c6_regex_expression c6env "name" "=" "(.+)@(?P<domain>.+)" Option.none
    [("name", Value.str "test@test.com")] "test@test.com" (by decide)
    (Or.inl rfl) rfl]
  rfl

/-! ## C9 — unmatched end tags at the top level -/

/-- A token whose node construction succeeds and opens no scope (its class
has no truthy `end_tags`), so `build_ast` appends it as a plain child. -/
def flatTok (t : Token) : Bool :=
  match token_factory t.1 t.2 with
  | Except.ok n => n.endTags.isEmpty
  | Except.error _ => false

/-- The nodes constructed from a token list. -/
def flatNodes (ts : List Token) : List Node :=
  ts.filterMap (fun t => (token_factory t.1 t.2).toOption)

/-- With only scope-free tokens, `inner` appends every constructed node to
the synthetic root, one token per frame. -/
theorem innerB_flat :
    ∀ (ts : List Token) (F : Nat) (a : TokAttrs) (ch : List Node),
      (∀ t ∈ ts, flatTok t = true) → ts.length + 1 ≤ F →
      innerB F (Node.node a ch) ts Option.none =
        Except.ok (Node.node a (ch ++ flatNodes ts), []) := by
  intro ts
  induction ts with
  | nil =>
    intro F a ch hflat hF
    obtain ⟨G, rfl⟩ : ∃ G, F = G + 1 := ⟨F - 1, by omega⟩
    simp [innerB, flatNodes]
  | cons t ts ih =>
    intro F a ch hflat hF
    obtain ⟨G, rfl⟩ : ∃ G, F = G + 1 := ⟨F - 1, by omega⟩
    have ht : flatTok t = true := hflat t (by simp)
    unfold flatTok at ht
    cases hf : token_factory t.1 t.2 with
    | error e =>
      rw [hf] at ht
      cases ht
    | ok node =>
      rw [hf] at ht
      have het : node.endTags = [] := by
        simpa using ht
      simp only [innerB, hf]
      rw [if_neg (by simp [het])]
      have hroot : ¬((Node.node a ch).endTags ≠ [] ∧ t.1 ∈ (Node.node a ch).endTags) := by
        simp [Node.endTags]
      rw [if_neg hroot]
      have happ : appendChild (Node.node a ch) node = Node.node a (ch ++ [node]) := rfl
      rw [happ, ih G a (ch ++ [node]) (fun u hu => hflat u (List.mem_cons_of_mem t hu))
        (by simpa using hF)]
      simp [flatNodes, List.filterMap_cons, hf, Except.toOption]

/-- `''.join` does not see a falsy empty-string fragment. -/
theorem joinFrags_skip_empty (xs ys : List (Option Value)) :
    joinFrags (xs ++ Option.some (Value.str "") :: ys) = joinFrags (xs ++ ys) := by
  unfold joinFrags
  rw [List.filter_append, List.filter_append, List.filter_cons]
  simp [fragTruthy]

/-- C9: a stray `ENDIF`/`ENDBLOCK` token among scope-free tokens parses
without error into an inert node appended to the synthetic root; that node
evaluates to the empty fragment with the context untouched; and a root
whose children contain such a node renders exactly as the root without it. -/
theorem c9_stray_end_tag :
    (∀ (ts1 ts2 : List Token) (name : String) (attrs : TokAttrs),
      (∀ t ∈ ts1 ++ ts2, flatTok t = true) →
      (name = "ENDIF" ∨ name = "ENDBLOCK") →
      build_ast (ts1 ++ (name, attrs) :: ts2) Option.none =
        Except.ok (Node.node TokAttrs.none
          (flatNodes ts1 ++
            (if name = "ENDIF" then Node.endif attrs [] else Node.endblock attrs []) ::
              flatNodes ts2))) ∧
    (∀ (env : Env) (n : Nat) (attrs : TokAttrs) (ctx : Ctx),
      evalNode env (n + 2) (Node.endif attrs []) ctx =
          Except.ok (Option.some (Value.str ""), ctx) ∧
      evalNode env (n + 2) (Node.endblock attrs []) ctx =
          Except.ok (Option.some (Value.str ""), ctx)) ∧
    (∀ (env : Env) (F : Nat) (a attrs : TokAttrs) (c1 c2 : List Node) (ctx : Ctx)
      (strayN : Node) (r : Option Value × Ctx),
      (strayN = Node.endif attrs [] ∨ strayN = Node.endblock attrs []) →
      evalNode env F (Node.node a (c1 ++ strayN :: c2)) ctx = Except.ok r →
      evalNode env F (Node.node a (c1 ++ c2)) ctx = Except.ok r) := by
  refine ⟨?_, ?_, ?_⟩
  · intro ts1 ts2 name attrs hflat hname
    have hstray : flatTok (name, attrs) = true := by
      rcases hname with h | h <;> subst h <;> rfl
    have hall : ∀ t ∈ ts1 ++ (name, attrs) :: ts2, flatTok t = true := by
      intro t hmem
      rcases List.mem_append.1 hmem with h | h
      · exact hflat t (List.mem_append.2 (Or.inl h))
      · rcases List.mem_cons.1 h with h | h
        · subst h
          exact hstray
        · exact hflat t (List.mem_append.2 (Or.inr h))
    unfold build_ast
    rw [innerB_flat (ts1 ++ (name, attrs) :: ts2) _ TokAttrs.none [] hall (by omega)]
    have hnodes : flatNodes (ts1 ++ (name, attrs) :: ts2) =
        flatNodes ts1 ++
          (if name = "ENDIF" then Node.endif attrs [] else Node.endblock attrs []) ::
            flatNodes ts2 := by
      unfold flatNodes
      rw [List.filterMap_append, List.filterMap_cons]
      rcases hname with h | h <;> subst h <;>
        simp [token_factory, Except.toOption]
    rw [List.nil_append, hnodes]
  · intro env n attrs ctx
    exact ⟨rfl, rfl⟩
  · intro env F a attrs c1 c2 ctx strayN r hstray h
    cases F with
    | zero => cases h
    | succ G =>
      rw [evalNode_succ] at h ⊢
      simp only [nodeEvalBody] at h ⊢
      cases het : evaluate_tokens env G (c1 ++ strayN :: c2) ctx with
      | error e =>
        rw [het] at h
        cases h
      | ok sc =>
        obtain ⟨s, c⟩ := sc
        rw [het] at h
        unfold evaluate_tokens at het
        cases hl : evalList env G (c1 ++ strayN :: c2) ctx with
        | error e =>
          rw [hl] at het
          cases het
        | ok fsc =>
          obtain ⟨fs, c'⟩ := fsc
          rw [hl] at het
          rw [evalList_append] at hl
          cases h1 : evalList env G c1 ctx with
          | error e =>
            rw [h1] at hl
            cases hl
          | ok p1 =>
            obtain ⟨fs1, d1⟩ := p1
            rw [h1] at hl
            dsimp only at hl
            cases hG1 : G - c1.length with
            | zero =>
              rw [hG1] at hl
              cases hl
            | succ k =>
              rw [hG1, evalList_succ_cons] at hl
              cases k with
              | zero =>
                rw [evalNode_zero] at hl
                cases hl
              | succ k' =>
                cases k' with
                | zero =>
                  have hone : evalNode env 1 strayN d1 =
                      Except.error Err.recursionLimit := by
                    rcases hstray with hs | hs <;> subst hs <;> rfl
                  rw [hone] at hl
                  cases hl
                | succ k2 =>
                  have hstrayEval : evalNode env (k2 + 1 + 1) strayN d1 =
                      Except.ok (Option.some (Value.str ""), d1) := by
                    rcases hstray with hs | hs <;> subst hs <;> rfl
                  rw [hstrayEval] at hl
                  dsimp only at hl
                  cases h2 : evalList env (k2 + 1 + 1) c2 d1 with
                  | error e =>
                    rw [h2] at hl
                    cases hl
                  | ok p2 =>
                    obtain ⟨fs2, c2x⟩ := p2
                    rw [h2] at hl
                    dsimp only at hl
                    injection hl with hl
                    injection hl with hfs hc
                    subst hfs
                    subst hc
                    have h2lift : evalList env (k2 + 1 + 1 + 1) c2 d1 =
                        Except.ok (fs2, c2x) := by
                      rw [evalList_mono env (by omega : k2 + 1 + 1 ≤ k2 + 1 + 1 + 1)
                        c2 d1 (by rw [h2]; intro hbad; cases hbad), h2]
                    have htarget : evalList env G (c1 ++ c2) ctx =
                        Except.ok (fs1 ++ fs2, c2x) := by
                      rw [evalList_append, h1]
                      dsimp only
                      rw [hG1, h2lift]
                    dsimp only at het
                    cases hj : joinFrags (fs1 ++ Option.some (Value.str "") :: fs2) with
                    | error e =>
                      rw [hj] at het
                      cases het
                    | ok s0 =>
                      rw [hj] at het
                      injection het with het1
                      injection het1 with hets hetc
                      subst hets
                      subst hetc
                      have hetarget : evaluate_tokens env G (c1 ++ c2) ctx =
                          Except.ok (s0, c2x) := by
                        unfold evaluate_tokens
                        rw [htarget]
                        dsimp only
                        rw [← joinFrags_skip_empty fs1 fs2, hj]
                      rw [hetarget]
                      exact h

/-- Witness for C9: the document `foo<!--# endif -->bar` parses to a root
with an inert stray `Endif` child, that child evaluates to the empty
fragment, and the render equals the render of the stray-free root. -/
theorem c9_stray_end_tag_witness :
    Parser.parse "foo<!--# endif -->bar" =
      Except.ok (Node.node TokAttrs.none
        [Node.text (TokAttrs.str "foo") [], Node.endif TokAttrs.none [],
         Node.text (TokAttrs.str "bar") []]) ∧
    build_ast [("TEXT", TokAttrs.str "foo"), ("ENDIF", TokAttrs.none),
        ("TEXT", TokAttrs.str "bar")] Option.none =
      Except.ok (Node.node TokAttrs.none
        [Node.text (TokAttrs.str "foo") [], Node.endif TokAttrs.none [],
         Node.text (TokAttrs.str "bar") []]) ∧
    evalNode stubEnv 2 (Node.endif TokAttrs.none []) [] =
      Except.ok (Option.some (Value.str ""), []) ∧
    evalNode stubEnv 10 (Node.node TokAttrs.none
        [Node.text (TokAttrs.str "foo") [], Node.text (TokAttrs.str "bar") []]) [] =
      Except.ok (Option.some (Value.str "foobar"), []) := by
  refine ⟨rfl, ?_, ?_, ?_⟩
  · exact c9_stray_end_tag.1 [("TEXT", TokAttrs.str "foo")]
      [("TEXT", TokAttrs.str "bar")] "ENDIF" TokAttrs.none (by decide) (Or.inl rfl)
  · exact (c9_stray_end_tag.2.1 stubEnv 0 TokAttrs.none []).1
  · exact c9_stray_end_tag.2.2 stubEnv 10 TokAttrs.none TokAttrs.none
      [Node.text (TokAttrs.str "foo") []] [Node.text (TokAttrs.str "bar") []] []
      (Node.endif TokAttrs.none []) (Option.some (Value.str "foobar"), [])
      (Or.inl rfl) rfl

/-! ## C8 — the attribute grammar -/

/-- Canonical rendering of an attribute list: `k="v"` pairs separated by
single spaces. -/
def renderAttrsL : List (String × String) → List Char
  | [] => []
  | (k, v) :: rest =>
    k.data ++ '=' :: '"' :: v.data ++ '"' ::
      (match rest with
       | [] => []
       | _ :: _ => ' ' :: renderAttrsL rest)

/-- A well-formed attribute name: non-empty, every character from the
grammar's name alphabet. -/
def wfKeyB (k : String) : Bool := !k.data.isEmpty && k.data.all nameChar

/-- A well-formed attribute value: no quote, newline, or backslash. -/
def wfValB (v : String) : Bool :=
  v.data.all (fun c => !(c = '"' || c = '\n' || c = '\r' || c = '\\'))

theorem nameChar_ppWs (c : Char) (h : nameChar c = true) : ppWs c = false := by
  have h1 : c ≠ ' ' := by
    rintro rfl
    exact absurd h (by decide)
  have h2 : c ≠ '\n' := by
    rintro rfl
    exact absurd h (by decide)
  have h3 : c ≠ '\t' := by
    rintro rfl
    exact absurd h (by decide)
  simp [ppWs, h1, h2, h3]

theorem takeWhile_append_cons {p : Char → Bool} :
    ∀ (xs : List Char) (y : Char) (ys : List Char),
      (∀ c ∈ xs, p c = true) → p y = false →
      (xs ++ y :: ys).takeWhile p = xs ∧ (xs ++ y :: ys).dropWhile p = y :: ys := by
  intro xs
  induction xs with
  | nil =>
    intro y ys _ hy
    simp [List.takeWhile_cons, List.dropWhile_cons, hy]
  | cons c xs ih =>
    intro y ys hall hy
    have hc : p c = true := hall c (by simp)
    have ihr := ih y ys (fun d hd => hall d (List.mem_cons_of_mem c hd)) hy
    simp [List.takeWhile_cons, List.dropWhile_cons, hc, ihr.1, ihr.2]

/-- Parsing one rendered `k="v"` group picks off exactly the pair. -/
theorem parseAttrPair_render (k v : String) (rest : List Char)
    (hk : wfKeyB k = true) (hv : wfValB v = true) :
    parseAttrPair (k.data ++ '=' :: '"' :: (v.data ++ '"' :: rest)) =
      Option.some ((k, v), rest) := by
  have hk' : (!k.data.isEmpty) = true ∧ k.data.all nameChar = true := by
    simpa [wfKeyB, Bool.and_eq_true] using hk
  have hkne : k.data ≠ [] := by
    have := hk'.1
    simpa using this
  have hkall : ∀ c ∈ k.data, nameChar c = true :=
    fun c hc => List.all_eq_true.1 hk'.2 c hc
  have hvall : ∀ c ∈ v.data,
      (fun d => d ≠ '"' && d ≠ '\n' && d ≠ '\r' && d ≠ '\\') c = true := by
    intro c hc
    have := List.all_eq_true.1 hv c hc
    simp only [Bool.not_eq_true'] at this
    simp only [Bool.or_eq_false_iff] at this
    obtain ⟨⟨⟨e1, e2⟩, e3⟩, e4⟩ := this
    simp_all [decide_eq_false_iff_not]
  -- the name token
  have hword : parseWord nameChar (k.data ++ '=' :: '"' :: (v.data ++ '"' :: rest)) =
      Option.some (k, '=' :: '"' :: (v.data ++ '"' :: rest)) := by
    obtain ⟨c0, k0, hk0⟩ : ∃ c0 k0, k.data = c0 :: k0 := by
      cases hkd : k.data with
      | nil => exact absurd hkd hkne
      | cons a l => exact ⟨a, l, rfl⟩
    have hsk : skipWs (k.data ++ '=' :: '"' :: (v.data ++ '"' :: rest)) =
        k.data ++ '=' :: '"' :: (v.data ++ '"' :: rest) := by
      rw [hk0]
      simp only [List.cons_append, skipWs, List.dropWhile_cons]
      rw [nameChar_ppWs c0 (hkall c0 (by rw [hk0]; simp))]
      simp
    have htk := takeWhile_append_cons k.data '='
      ('"' :: (v.data ++ '"' :: rest)) hkall (by decide)
    simp only [parseWord, hsk]
    rw [htk.1, htk.2, if_neg hkne]
  -- the separator
  have hlit : parseLit "=" ('=' :: '"' :: (v.data ++ '"' :: rest)) =
      Option.some ('"' :: (v.data ++ '"' :: rest)) := by
    simp only [parseLit]
    rfl
  -- the quoted value
  have hq : parseQuoted '"' ('"' :: (v.data ++ '"' :: rest)) =
      Option.some (v, rest) := by
    have htk := takeWhile_append_cons v.data '"' rest hvall (by decide)
    have hskq : skipWs ('"' :: (v.data ++ '"' :: rest)) =
        '"' :: (v.data ++ '"' :: rest) := rfl
    simp only [parseQuoted, hskq]
    simp only [if_true]
    rw [htk.1, htk.2]
    dsimp only
    simp only [if_true]
  unfold parseAttrPair
  rw [hword]
  dsimp only
  rw [hlit]
  dsimp only
  rw [hq]

/-- The `OneOrMore` loop consumes a rendered attribute list completely,
optionally after one separating space, recovering exactly the pairs. -/
theorem attrsLoop_render :
    ∀ (ps : List (String × String)) (fuel : Nat) (pre : List Char),
      (pre = [] ∨ pre = [' ']) →
      (∀ p ∈ ps, wfKeyB p.1 = true ∧ wfValB p.2 = true) →
      ps.length ≤ fuel →
      attrsLoop fuel (pre ++ renderAttrsL ps) =
        (ps, if ps.isEmpty then pre else []) := by
  intro ps
  induction ps with
  | nil =>
    intro fuel pre hpre hwf hlen
    cases fuel <;> rcases hpre with h | h <;> subst h <;> rfl
  | cons p rest ih =>
    intro fuel pre hpre hwf hlen
    obtain ⟨k, v⟩ := p
    obtain ⟨n, rfl⟩ : ∃ n, fuel = n + 1 :=
      ⟨fuel - 1, by simp only [List.length_cons] at hlen; omega⟩
    have hwfp := hwf (k, v) (by simp)
    cases rest with
    | nil =>
      have hpp : parseAttrPair (pre ++ renderAttrsL [(k, v)]) =
          parseAttrPair (renderAttrsL [(k, v)]) := by
        rcases hpre with h | h <;> subst h <;> rfl
      have hrender : renderAttrsL [(k, v)] =
          k.data ++ '=' :: '"' :: (v.data ++ '"' :: []) := by
        simp [renderAttrsL, List.cons_append, List.append_assoc]
      simp only [attrsLoop]
      rw [hpp, hrender, parseAttrPair_render k v [] hwfp.1 hwfp.2]
      cases n <;> rfl
    | cons q qs =>
      have hpp : parseAttrPair (pre ++ renderAttrsL ((k, v) :: q :: qs)) =
          parseAttrPair (renderAttrsL ((k, v) :: q :: qs)) := by
        rcases hpre with h | h <;> subst h <;> rfl
      have hrender : renderAttrsL ((k, v) :: q :: qs) =
          k.data ++ '=' :: '"' :: (v.data ++ '"' :: ' ' :: renderAttrsL (q :: qs)) := by
        simp [renderAttrsL, List.cons_append, List.append_assoc]
      simp only [attrsLoop]
      rw [hpp, hrender,
        parseAttrPair_render k v (' ' :: renderAttrsL (q :: qs)) hwfp.1 hwfp.2]
      dsimp only
      have hqs := ih n [' '] (Or.inr rfl)
        (fun u hu => hwf u (List.mem_cons_of_mem _ hu))
        (by simp only [List.length_cons] at hlen ⊢; omega)
      simp only [List.singleton_append] at hqs
      rw [hqs]
      simp

/-- Rendering is at least one character per pair. -/
theorem render_length : ∀ ps : List (String × String),
    ps.length ≤ (renderAttrsL ps).length := by
  intro ps
  induction ps with
  | nil => simp [renderAttrsL]
  | cons p rest ih =>
    obtain ⟨k, v⟩ := p
    cases rest with
    | nil =>
      have hrender : renderAttrsL [(k, v)] =
          k.data ++ '=' :: '"' :: (v.data ++ ['"']) := by
        simp [renderAttrsL, List.cons_append, List.append_assoc]
      rw [hrender]
      simp only [List.length_cons, List.length_append, List.length_nil,
        List.length_singleton]
      omega
    | cons q qs =>
      have hrender : renderAttrsL ((k, v) :: q :: qs) =
          k.data ++ '=' :: '"' :: (v.data ++ '"' :: ' ' :: renderAttrsL (q :: qs)) := by
        simp [renderAttrsL, List.cons_append, List.append_assoc]
      rw [hrender]
      have ih2 : qs.length + 1 ≤ (renderAttrsL (q :: qs)).length := by
        simpa using ih
      simp only [List.length_cons, List.length_append]
      omega

/-- `AttributeParser.parse` round-trips a rendered well-formed attribute
list into the dict comprehension of its pairs. -/
theorem AttributeParser_parse_render (ps : List (String × String))
    (hwf : ∀ p ∈ ps, wfKeyB p.1 = true ∧ wfValB p.2 = true) (hne : ps ≠ []) :
    AttributeParser.parse (String.mk (renderAttrsL ps)) =
      Except.ok (dictOfPairs ps) := by
  obtain ⟨⟨k, v⟩, rest, rfl⟩ : ∃ p rest, ps = p :: rest := by
    cases ps with
    | nil => exact absurd rfl hne
    | cons p rest => exact ⟨p, rest, rfl⟩
  have hwfp := hwf (k, v) (by simp)
  have hdata : (String.mk (renderAttrsL ((k, v) :: rest))).data =
      renderAttrsL ((k, v) :: rest) := rfl
  simp only [AttributeParser.parse, hdata]
  cases rest with
  | nil =>
    have hrender : renderAttrsL [(k, v)] =
        k.data ++ '=' :: '"' :: (v.data ++ '"' :: []) := by
      simp [renderAttrsL, List.cons_append, List.append_assoc]
    rw [hrender, parseAttrPair_render k v [] hwfp.1 hwfp.2]
    rfl
  | cons q qs =>
    have hrender : renderAttrsL ((k, v) :: q :: qs) =
        k.data ++ '=' :: '"' :: (v.data ++ '"' :: ' ' :: renderAttrsL (q :: qs)) := by
      simp [renderAttrsL, List.cons_append, List.append_assoc]
    rw [hrender,
      parseAttrPair_render k v (' ' :: renderAttrsL (q :: qs)) hwfp.1 hwfp.2]
    dsimp only
    have hloop := attrsLoop_render (q :: qs) (' ' :: renderAttrsL (q :: qs)).length
      [' '] (Or.inr rfl) (fun u hu => hwf u (List.mem_cons_of_mem _ hu))
      (by
        have hrl : qs.length + 1 ≤ (renderAttrsL (q :: qs)).length := by
          simpa using render_length (q :: qs)
        simp only [List.length_cons]
        omega)
    simp only [List.singleton_append] at hloop
    rw [hloop]
    simp [skipWs]

/-- The value at a key's last occurrence in a pair list (the claim's
"last write wins"). -/
def lastOccurrence (ps : List (String × String)) (k : String) : Option String :=
  ps.foldl (fun acc kv => if kv.1 = k then Option.some kv.2 else acc) Option.none

/-- Lookup after one dict write. -/
theorem assocGet_assocSet {α : Type} (m : List (String × α)) (k : String) (v : α)
    (k' : String) :
    assocGet (assocSet m k v) k' =
      if k' = k then Option.some v else assocGet m k' := by
  induction m with
  | nil =>
    by_cases h : k' = k
    · subst h
      simp [assocSet, assocGet, List.find?]
    · have hb : (k == k') = false := by
        simp only [beq_eq_false_iff_ne, ne_eq]
        exact fun hkk => h hkk.symm
      simp [assocSet, assocGet, List.find?, hb, h]
  | cons p m ih =>
    obtain ⟨k1, v1⟩ := p
    by_cases h1 : k1 = k
    · subst h1
      have hset : assocSet ((k1, v1) :: m) k1 v = (k1, v) :: m := by
        simp [assocSet]
      rw [hset]
      by_cases h2 : k' = k1
      · subst h2
        simp [assocGet, List.find?]
      · have hb : (k1 == k') = false := by
          simp only [beq_eq_false_iff_ne, ne_eq]
          exact fun hkk => h2 hkk.symm
        simp [assocGet, List.find?, hb, h2]
    · have hb1 : (k1 == k) = false := by
        simp only [beq_eq_false_iff_ne, ne_eq]
        exact h1
      have hset : assocSet ((k1, v1) :: m) k v = (k1, v1) :: assocSet m k v := by
        simp [assocSet, hb1]
      rw [hset]
      by_cases h2 : k1 = k'
      · subst h2
        simp [assocGet, List.find?, h1]
      · have hb2 : (k1 == k') = false := by
          simp only [beq_eq_false_iff_ne, ne_eq]
          exact h2
        simp only [assocGet, List.find?, hb2] at ih ⊢
        rw [ih]

/-- Lookup in the dict comprehension is the last occurrence of the key. -/
theorem dictOfPairs_lookup (ps : List (String × String)) (k : String) :
    assocGet (dictOfPairs ps) k = lastOccurrence ps k := by
  have gen : ∀ (ps : List (String × String)) (m : List (String × String)),
      assocGet (ps.foldl (fun acc kv => assocSet acc kv.1 kv.2) m) k =
        ps.foldl (fun acc kv => if kv.1 = k then Option.some kv.2 else acc)
          (assocGet m k) := by
    intro ps
    induction ps with
    | nil => intro m; rfl
    | cons p ps ih =>
      intro m
      obtain ⟨k1, v1⟩ := p
      simp only [List.foldl_cons]
      rw [ih (assocSet m k1 v1), assocGet_assocSet]
      by_cases h : k1 = k
      · subst h
        simp
      · have hne : ¬(k = k1) := fun hkk => h hkk.symm
        simp [h, hne]
  have base : assocGet ([] : List (String × String)) k = Option.none := rfl
  unfold dictOfPairs lastOccurrence
  rw [gen ps [], base]

/-- C8: parsing a rendered well-formed attribute list returns the dict
comprehension of its pairs, whose lookups are last-write-wins; and the
grammar rejects (raises, never truncates) an unquoted value, unbalanced
quotes, and trailing text after the last attribute. -/
theorem c8_attribute_grammar :
    (∀ (ps : List (String × String)),
      (∀ p ∈ ps, wfKeyB p.1 = true ∧ wfValB p.2 = true) → ps ≠ [] →
      AttributeParser.parse (String.mk (renderAttrsL ps)) =
          Except.ok (dictOfPairs ps) ∧
      ∀ k, assocGet (dictOfPairs ps) k = lastOccurrence ps k) ∧
    AttributeParser.parse "key=value" = Except.error Err.grammarError ∧
    AttributeParser.parse "key=\"value\" foo=\"bar" = Except.error Err.grammarError ∧
    AttributeParser.parse "key=\"value\" junk" = Except.error Err.grammarError := by
  refine ⟨?_, rfl, rfl, rfl⟩
  intro ps hwf hne
  exact ⟨AttributeParser_parse_render ps hwf hne,
    fun k => dictOfPairs_lookup ps k⟩

/-- Witness for C8: a duplicate key takes its last value, in first-
occurrence order. -/
theorem c8_attribute_grammar_witness :
    (∀ p ∈ [("a", "1"), ("b", "2"), ("a", "3")],
      wfKeyB p.1 = true ∧ wfValB p.2 = true) ∧
    String.mk (renderAttrsL [("a", "1"), ("b", "2"), ("a", "3")]) =
      "a=\"1\" b=\"2\" a=\"3\"" ∧
    AttributeParser.parse "a=\"1\" b=\"2\" a=\"3\"" =
      Except.ok [("a", "3"), ("b", "2")] ∧
    lastOccurrence [("a", "1"), ("b", "2"), ("a", "3")] "a" = Option.some "3" := by
  refine ⟨by decide, rfl, ?_, rfl⟩
  have h := (c8_attribute_grammar.1 [("a", "1"), ("b", "2"), ("a", "3")]
    (by decide) (by decide)).1
  simpa using h

/-! ## C5 — `if`/`elif`/`else` chains select one branch -/

/-- `Elif` inherits `If.evaluate` unchanged. -/
theorem elif_eval_eq_if (env : Env) (n : Nat) (a : TokAttrs)
    (ch el : List Node) (ctx : Ctx) :
    evalNode env n (Node.elif_ a ch el) ctx = evalNode env n (Node.if_ a ch el) ctx := by
  cases n with
  | zero => rfl
  | succ n => rfl

/-- The `_else_tokens` chain that `build_ast` hangs off an `if` for a
well-formed `elif*`/`else?` tail: each `elif` carries the rest of the
chain in its own `_else_tokens`, a final `else` holds the else body, and
an absent `else` leaves the innermost list empty. -/
def mkElifChain : List (String × List Node) → Option (List Node) → List Node
  | [], Option.none => []
  | [], Option.some els => [Node.else_ TokAttrs.none els]
  | (e, b) :: rest, els =>
    [Node.elif_ (TokAttrs.dict [("expr", e)]) b (mkElifChain rest els)]

/-- The full chain node: `if expr=e1` with body `b1`, alternatives `alts`,
optional else body `els`. -/
def mkChain (e1 : String) (b1 : List Node) (alts : List (String × List Node))
    (els : Option (List Node)) : Node :=
  Node.if_ (TokAttrs.dict [("expr", e1)]) b1 (mkElifChain alts els)

/-- The claim's selection semantics: walk the conditions in chain order,
threading the context through their evaluation (regex conditions mutate
it); the first true condition selects its body, a false tail selects the
else body when present, otherwise nothing. -/
def selectBranch (env : Env) :
    List (String × List Node) → Option (List Node) → Ctx →
      Except Err (Option (List Node) × Ctx)
  | [], Option.none, ctx => Except.ok (Option.none, ctx)
  | [], Option.some els, ctx => Except.ok (Option.some els, ctx)
  | (e, b) :: rest, els, ctx =>
    match ExpressionParser.parse e with
    | Except.error err => Except.error err
    | Except.ok expr =>
      match Expression.evaluate env expr ctx with
      | Except.error err => Except.error err
      | Except.ok (bl, ctx1) =>
        if bl then Except.ok (Option.some b, ctx1)
        else selectBranch env rest els ctx1

theorem joinFrags_single_str (s : String) :
    joinFrags [Option.some (Value.str s)] = Except.ok s := by
  by_cases h : s = ""
  · subst h
    rfl
  · simp only [joinFrags, List.filter, fragTruthy]
    have hd : decide ¬s = "" = true := by
      simp [h]
    simp [h]
    rfl

theorem joinFrags_single_falsy (fr : Option Value) (h : fragTruthy fr = false) :
    joinFrags [fr] = Except.ok "" := by
  simp [joinFrags, List.filter, h]
  rfl

theorem evaluate_tokens_singleton (env : Env) (n : Nat) (nd : Node) (ctx : Ctx) :
    evaluate_tokens env (n + 2) [nd] ctx =
      match evalNode env (n + 1) nd ctx with
      | Except.error e => Except.error e
      | Except.ok (fr, c) =>
        match joinFrags [fr] with
        | Except.error e => Except.error e
        | Except.ok s => Except.ok (s, c) := by
  unfold evaluate_tokens
  rw [show n + 2 = (n + 1) + 1 from rfl, evalList_succ_cons]
  cases h : evalNode env (n + 1) nd ctx with
  | error e => rfl
  | ok p =>
    obtain ⟨fr, c⟩ := p
    dsimp only
    rw [show evalList env (n + 1) [] c = Except.ok ([], c) from rfl]

/-- C5: a chain built like the parser builds `if`/`elif`/`else` chains
evaluates exactly one branch — the body of the first true condition
(against the context threaded through the condition evaluations), else
the `else` body, else nothing: with no branch selected the chain yields a
falsy fragment (no output), `None` for a bare `if`, an empty string once
`elif`s are involved. -/
theorem c5_chain_selection :
    ∀ (alts : List (String × List Node)) (env : Env) (e1 : String)
      (b1 : List Node) (els : Option (List Node)) (ctx : Ctx) (f : Nat),
      (∀ (body : List Node) (ctxSel : Ctx) (s : String) (c : Ctx),
        selectBranch env ((e1, b1) :: alts) els ctx =
            Except.ok (Option.some body, ctxSel) →
        evaluate_tokens env f body ctxSel = Except.ok (s, c) →
        evalNode env (f + 2 * alts.length + 3) (mkChain e1 b1 alts els) ctx =
          Except.ok (Option.some (Value.str s), c)) ∧
      (∀ ctxF : Ctx,
        selectBranch env ((e1, b1) :: alts) els ctx = Except.ok (Option.none, ctxF) →
        evalNode env (f + 2 * alts.length + 3) (mkChain e1 b1 alts els) ctx =
          Except.ok ((if alts.isEmpty then Option.none
            else Option.some (Value.str "")), ctxF)) := by
  intro alts
  induction alts with
  | nil =>
    intro env e1 b1 els ctx f
    have hget : assocGet [("expr", e1)] "expr" = Option.some e1 := rfl
    constructor
    · intro body ctxSel s c hsel hbody
      unfold selectBranch at hsel
      cases hp : ExpressionParser.parse e1 with
      | error err =>
        rw [hp] at hsel
        cases hsel
      | ok expr =>
        rw [hp] at hsel
        dsimp only at hsel
        cases hev : Expression.evaluate env expr ctx with
        | error err =>
          rw [hev] at hsel
          cases hsel
        | ok p =>
          obtain ⟨bl, ctx1⟩ := p
          rw [hev] at hsel
          dsimp only at hsel
          rw [show f + 2 * List.length ([] : List (String × List Node)) + 3 =
            (f + 2) + 1 from rfl, evalNode_succ]
          cases bl with
          | true =>
            simp only [if_true] at hsel
            simp only [Except.ok.injEq, Prod.mk.injEq, Option.some.injEq] at hsel
            obtain ⟨rfl, rfl⟩ := hsel
            have hlift : evaluate_tokens env (f + 2) b1 ctx1 = Except.ok (s, c) := by
              rw [evaluate_tokens_mono env (by omega : f ≤ f + 2) b1 ctx1
                (by rw [hbody]; intro hbad; cases hbad), hbody]
            simp only [mkChain, nodeEvalBody, hget, hp, hev, if_true, hlift]
          | false =>
            simp only [Bool.false_eq_true, if_false] at hsel
            cases els with
            | none => simp [selectBranch] at hsel
            | some elsb =>
              unfold selectBranch at hsel
              simp only [Except.ok.injEq, Prod.mk.injEq, Option.some.injEq] at hsel
              obtain ⟨rfl, rfl⟩ := hsel
              simp only [mkChain, nodeEvalBody, hget, hp, hev,
                Bool.false_eq_true, if_false]
              have helne : (mkElifChain [] (Option.some elsb)).isEmpty = false := rfl
              rw [helne]
              simp only [Bool.false_eq_true, if_false]
              have hsingle := evaluate_tokens_singleton env f
                (Node.else_ TokAttrs.none elsb) ctx1
              have helse : evalNode env (f + 1) (Node.else_ TokAttrs.none elsb) ctx1 =
                  Except.ok (Option.some (Value.str s), c) := by
                rw [evalNode_succ]
                simp only [nodeEvalBody, hbody]
              rw [show mkElifChain [] (Option.some elsb) =
                [Node.else_ TokAttrs.none elsb] from rfl]
              rw [hsingle, helse]
              dsimp only
              rw [joinFrags_single_str]
    · intro ctxF hsel
      unfold selectBranch at hsel
      cases hp : ExpressionParser.parse e1 with
      | error err =>
        rw [hp] at hsel
        cases hsel
      | ok expr =>
        rw [hp] at hsel
        dsimp only at hsel
        cases hev : Expression.evaluate env expr ctx with
        | error err =>
          rw [hev] at hsel
          cases hsel
        | ok p =>
          obtain ⟨bl, ctx1⟩ := p
          rw [hev] at hsel
          dsimp only at hsel
          rw [show f + 2 * List.length ([] : List (String × List Node)) + 3 =
            (f + 2) + 1 from rfl, evalNode_succ]
          cases bl with
          | true =>
            simp only [if_true] at hsel
            cases hsel
          | false =>
            simp only [Bool.false_eq_true, if_false] at hsel
            cases els with
            | some elsb => simp [selectBranch] at hsel
            | none =>
              unfold selectBranch at hsel
              simp only [Except.ok.injEq, Prod.mk.injEq] at hsel
              obtain ⟨-, rfl⟩ := hsel
              simp only [mkChain, nodeEvalBody, hget, hp, hev,
                Bool.false_eq_true, if_false]
              have hel : (mkElifChain [] Option.none).isEmpty = true := rfl
              rw [hel]
              simp
  | cons hd alts' ih =>
    obtain ⟨e2, b2⟩ := hd
    intro env e1 b1 els ctx f
    have hget : assocGet [("expr", e1)] "expr" = Option.some e1 := rfl
    have hchain : mkElifChain ((e2, b2) :: alts') els =
        [Node.elif_ (TokAttrs.dict [("expr", e2)]) b2 (mkElifChain alts' els)] := rfl
    have hfuel : f + 2 * ((e2, b2) :: alts').length + 3 =
        ((f + 2 * alts'.length + 2) + 2) + 1 := by
      simp only [List.length_cons]
      omega
    have hne : (mkElifChain ((e2, b2) :: alts') els).isEmpty = false := by
      rw [hchain]
      rfl
    constructor
    · intro body ctxSel s c hsel hbody
      unfold selectBranch at hsel
      cases hp : ExpressionParser.parse e1 with
      | error err =>
        rw [hp] at hsel
        cases hsel
      | ok expr =>
        rw [hp] at hsel
        dsimp only at hsel
        cases hev : Expression.evaluate env expr ctx with
        | error err =>
          rw [hev] at hsel
          cases hsel
        | ok p =>
          obtain ⟨bl, ctx1⟩ := p
          rw [hev] at hsel
          dsimp only at hsel
          rw [hfuel, evalNode_succ]
          cases bl with
          | true =>
            simp only [if_true] at hsel
            simp only [Except.ok.injEq, Prod.mk.injEq, Option.some.injEq] at hsel
            obtain ⟨rfl, rfl⟩ := hsel
            have hlift : evaluate_tokens env ((f + 2 * alts'.length + 2) + 2)
                b1 ctx1 = Except.ok (s, c) := by
              rw [evaluate_tokens_mono env (by omega : f ≤ (f + 2 * alts'.length + 2) + 2)
                b1 ctx1 (by rw [hbody]; intro hbad; cases hbad), hbody]
            simp only [mkChain, nodeEvalBody, hget, hp, hev, if_true, hlift]
          | false =>
            simp only [Bool.false_eq_true, if_false] at hsel
            simp only [mkChain, nodeEvalBody, hget, hp, hev,
              Bool.false_eq_true, if_false]
            rw [hne]
            simp only [Bool.false_eq_true, if_false]
            rw [hchain,
              evaluate_tokens_singleton env (f + 2 * alts'.length + 2)
                (Node.elif_ (TokAttrs.dict [("expr", e2)]) b2 (mkElifChain alts' els)) ctx1,
              elif_eval_eq_if]
            have hinner := (ih env e2 b2 els ctx1 f).1 body ctxSel s c hsel hbody
            rw [show (f + 2 * alts'.length + 2) + 1 = f + 2 * alts'.length + 3 from rfl]
            rw [show Node.if_ (TokAttrs.dict [("expr", e2)]) b2 (mkElifChain alts' els) =
              mkChain e2 b2 alts' els from rfl]
            rw [hinner]
            dsimp only
            rw [joinFrags_single_str]
    · intro ctxF hsel
      unfold selectBranch at hsel
      cases hp : ExpressionParser.parse e1 with
      | error err =>
        rw [hp] at hsel
        cases hsel
      | ok expr =>
        rw [hp] at hsel
        dsimp only at hsel
        cases hev : Expression.evaluate env expr ctx with
        | error err =>
          rw [hev] at hsel
          cases hsel
        | ok p =>
          obtain ⟨bl, ctx1⟩ := p
          rw [hev] at hsel
          dsimp only at hsel
          rw [hfuel, evalNode_succ]
          cases bl with
          | true =>
            simp only [if_true] at hsel
            cases hsel
          | false =>
            simp only [Bool.false_eq_true, if_false] at hsel
            simp only [mkChain, nodeEvalBody, hget, hp, hev,
              Bool.false_eq_true, if_false]
            rw [hne]
            simp only [Bool.false_eq_true, if_false]
            rw [hchain,
              evaluate_tokens_singleton env (f + 2 * alts'.length + 2)
                (Node.elif_ (TokAttrs.dict [("expr", e2)]) b2 (mkElifChain alts' els)) ctx1,
              elif_eval_eq_if]
            have hinner := (ih env e2 b2 els ctx1 f).2 ctxF hsel
            rw [show (f + 2 * alts'.length + 2) + 1 = f + 2 * alts'.length + 3 from rfl]
            rw [show Node.if_ (TokAttrs.dict [("expr", e2)]) b2 (mkElifChain alts' els) =
              mkChain e2 b2 alts' els from rfl]
            rw [hinner]
            dsimp only
            rw [joinFrags_single_falsy _ (by
              cases halts : alts'.isEmpty <;> simp [halts, fragTruthy])]
            simp

/-- Witness for C5: the repository's own chain scenario — `else` selected
when both conditions are false — and the empty render of a chain with no
`else`; the parsed document has exactly the `mkChain` shape. -/
theorem c5_chain_selection_witness :
    Parser.parse ("<!--# if expr=\"$name = foo\" -->foo" ++
        "<!--# elif expr=\"$name = bar\" -->bar<!--# else -->baz<!--# endif -->") =
      Except.ok (Node.node TokAttrs.none
        [mkChain "$name = foo" [Node.text (TokAttrs.str "foo") []]
          [("$name = bar", [Node.text (TokAttrs.str "bar") []])]
          (Option.some [Node.text (TokAttrs.str "baz") []])]) ∧
    selectBranch stubEnv
        [("$name = foo", [Node.text (TokAttrs.str "foo") []]),
         ("$name = bar", [Node.text (TokAttrs.str "bar") []])]
        (Option.some [Node.text (TokAttrs.str "baz") []])
        [("name", Value.str "baz")] =
      Except.ok (Option.some [Node.text (TokAttrs.str "baz") []],
        [("name", Value.str "baz")]) ∧
    evaluate_tokens stubEnv 2 [Node.text (TokAttrs.str "baz") []]
        [("name", Value.str "baz")] =
      Except.ok ("baz", [("name", Value.str "baz")]) ∧
    evalNode stubEnv 7
        (mkChain "$name = foo" [Node.text (TokAttrs.str "foo") []]
          [("$name = bar", [Node.text (TokAttrs.str "bar") []])]
          (Option.some [Node.text (TokAttrs.str "baz") []]))
        [("name", Value.str "baz")] =
      Except.ok (Option.some (Value.str "baz"), [("name", Value.str "baz")]) ∧
    evalNode stubEnv 5
        (mkChain "$name = foo" [Node.text (TokAttrs.str "foo") []]
          [("$name = bar", [Node.text (TokAttrs.str "bar") []])] Option.none)
        [("name", Value.str "zap")] =
      Except.ok (Option.some (Value.str ""), [("name", Value.str "zap")]) := by
  refine ⟨rfl, rfl, rfl, ?_, ?_⟩
  · exact (c5_chain_selection
      [("$name = bar", [Node.text (TokAttrs.str "bar") []])] stubEnv
      "$name = foo" [Node.text (TokAttrs.str "foo") []]
      (Option.some [Node.text (TokAttrs.str "baz") []])
      [("name", Value.str "baz")] 2).1
      [Node.text (TokAttrs.str "baz") []] [("name", Value.str "baz")]
      "baz" [("name", Value.str "baz")] rfl rfl
  · exact (c5_chain_selection
      [("$name = bar", [Node.text (TokAttrs.str "bar") []])] stubEnv
      "$name = foo" [Node.text (TokAttrs.str "foo") []] Option.none
      [("name", Value.str "zap")] 0).2 [("name", Value.str "zap")] rfl

end Pyssi
